import Mathlib

/-!
Verification of the storage, analytics and question-answering pipeline of the
InsightAgent repository (src/agent.py and src/main.py), as a shallow embedding
in Lean.

Python strings are modelled as Lean strings (sequences of Unicode scalar
values).  Library calls made by the source (the json module, pandas
constructors and sorting primitives, the boto3/S3 object store and the local
file system) are modelled by executable Lean functions that follow the
documented behaviour of those calls; each such model carries a doc comment
naming the library behaviour it embeds and, where the model is only faithful
on part of the input space, stating that boundary and how the theorems stay
inside it.  Character-class primitives (isalnum, lower, strip) are faithful
on the Basic Latin and Latin-1 Supplement blocks.
-/

namespace InsightAgent

/-- Model of Python str.isalnum on one character, by code point.  Faithful on
the Basic Latin and Latin-1 Supplement blocks (up to U+00FF): ASCII digits
and letters, the Latin-1 alphanumerics ª ² ³ µ ¹ º ¼ ½ ¾, and the Latin-1
letters À-Ö, Ø-ö, ø-ÿ (× U+00D7 and ÷ U+00F7 are not alphanumeric).
Python's isalnum accepts further alphanumerics above U+00FF, which classify
false here; no theorem below depends on that region — universal statements
about the sanitizer restrict their input to ASCII, and concrete evaluations
use Latin-1 strings only. -/
def pyIsAlnum (c : Char) : Bool :=
  decide ((48 ≤ c.toNat ∧ c.toNat ≤ 57) ∨ (65 ≤ c.toNat ∧ c.toNat ≤ 90) ∨
    (97 ≤ c.toNat ∧ c.toNat ≤ 122) ∨ c.toNat = 170 ∨ c.toNat = 178 ∨
    c.toNat = 179 ∨ c.toNat = 181 ∨ c.toNat = 185 ∨ c.toNat = 186 ∨
    (188 ≤ c.toNat ∧ c.toNat ≤ 190) ∨ (192 ≤ c.toNat ∧ c.toNat ≤ 214) ∨
    (216 ≤ c.toNat ∧ c.toNat ≤ 246) ∨ (248 ≤ c.toNat ∧ c.toNat ≤ 255))

/-- Model of Python str.lower on one character.  Faithful on Basic Latin and
Latin-1: A-Z and À-Þ (except ×) move down by 0x20, µ (U+00B5) lowercases to
Greek μ (U+03BC), and every other character of those blocks (including ß,
ÿ and the lower-case letters) maps to itself.  Above U+00FF the map is the
identity, which no theorem below exercises on an upper-case letter. -/
def pyToLowerChar (c : Char) : Char :=
  if 65 ≤ c.toNat ∧ c.toNat ≤ 90 then Char.ofNat (c.toNat + 32)
  else if c.toNat = 181 then Char.ofNat 956
  else if (192 ≤ c.toNat ∧ c.toNat ≤ 214) ∨ (216 ≤ c.toNat ∧ c.toNat ≤ 222)
    then Char.ofNat (c.toNat + 32)
  else c

/-- Model of Python str.lower on a string (ASCII case mapping). -/
def pyLower (s : String) : String :=
  String.mk (s.data.map pyToLowerChar)

/-- The whitespace characters removed by Python str.strip(). -/
def pyIsSpace (c : Char) : Bool :=
  c = ' ' || c = '\t' || c = '\n' || c = '\r' || c = '\x0b' || c = '\x0c'

/-- Strip characters satisfying p from both ends of a character list,
as Python str.strip does. -/
def stripEnds (p : Char → Bool) (l : List Char) : List Char :=
  ((l.dropWhile p).reverse.dropWhile p).reverse

/-- Model of Python str.strip() with no argument (strip whitespace). -/
def pyStrip (s : String) : String :=
  String.mk (stripEnds pyIsSpace s.data)

/-- Model of Python str.strip(chars) for a one-character strip set. -/
def pyStripChar (c : Char) (s : String) : String :=
  String.mk (stripEnds (fun d => d == c) s.data)

/-- Model of the Python slice s[:n]. -/
def pySliceTo (n : Nat) (s : String) : String :=
  String.mk (s.data.take n)

/-- Model of Python str.startswith. -/
def pyStartswith (s start : String) : Bool :=
  start.data.isPrefixOf s.data

/-- Embedding of sanitize_for_filename (src/agent.py line 120):
join of (c if c.isalnum() or c in ['_', '-'] else '_' for c in text),
then .strip('_'), then .lower(), then [:50]. -/
def sanitize_for_filename (text : String) : String :=
  pySliceTo 50 (pyLower (pyStripChar '_'
    (String.mk (text.data.map
      (fun c => if pyIsAlnum c || c == '_' || c == '-' then c else '_')))))

/-- A character admissible per the claim's ASCII regex class [a-z0-9_-]. -/
def sanitaryChar (c : Char) : Bool :=
  decide ((97 ≤ c.toNat ∧ c.toNat ≤ 122) ∨ (48 ≤ c.toNat ∧ c.toNat ≤ 57) ∨
    c.toNat = 95 ∨ c.toNat = 45)

/-- Over-approximation of the characters sanitize_for_filename can emit on
ARBITRARY input: ASCII digits, ASCII lower-case letters, '-', '_', and any
code point of 0xAA and above (which covers the Latin-1 alphanumerics, their
lower-case images and μ).  Its point: no admissible character is ':' or
'/', so generated filenames and S3 keys stay scheme- and separator-free. -/
def keyChar (c : Char) : Bool :=
  decide ((48 ≤ c.toNat ∧ c.toNat ≤ 57) ∨ (97 ≤ c.toNat ∧ c.toNat ≤ 122) ∨
    c.toNat = 45 ∨ c.toNat = 95 ∨ 170 ≤ c.toNat)

theorem charOfNat_toNat (n : Nat) (h : n < 55296) : (Char.ofNat n).toNat = n := by
  unfold Char.ofNat
  rw [dif_pos (Or.inl h)]
  simp only [Char.ofNatAux, Char.toNat]
  simp only [UInt32.toNat, UInt32.ofNatCore]
  simp

theorem char_le_iff_toNat {c d : Char} : c ≤ d ↔ c.toNat ≤ d.toNat := Iff.rfl

theorem stripEnds_subset (p : Char → Bool) (l : List Char) :
    ∀ c ∈ stripEnds p l, c ∈ l := by
  intro c hc
  unfold stripEnds at hc
  rw [List.mem_reverse] at hc
  have h1 := (List.dropWhile_sublist p).subset hc
  rw [List.mem_reverse] at h1
  exact (List.dropWhile_sublist p).subset h1

theorem pyIsAlnum_toNat {c : Char} (h : pyIsAlnum c = true) :
    (48 ≤ c.toNat ∧ c.toNat ≤ 57) ∨ (65 ≤ c.toNat ∧ c.toNat ≤ 90) ∨
    (97 ≤ c.toNat ∧ c.toNat ≤ 122) ∨ (170 ≤ c.toNat ∧ c.toNat ≤ 255) := by
  have h2 := of_decide_eq_true h
  omega

/-- The code-point facts available for a character the sanitizer keeps
(isalnum, '_' or '-'). -/
theorem accepted_toNat {c : Char}
    (h : (pyIsAlnum c || c == '_' || c == '-') = true) :
    (48 ≤ c.toNat ∧ c.toNat ≤ 57) ∨ (65 ≤ c.toNat ∧ c.toNat ≤ 90) ∨
    (97 ≤ c.toNat ∧ c.toNat ≤ 122) ∨ c.toNat = 95 ∨ c.toNat = 45 ∨
    (170 ≤ c.toNat ∧ c.toNat ≤ 255) := by
  simp only [Bool.or_eq_true, beq_iff_eq] at h
  rcases h with (h | rfl) | rfl
  · have h2 := pyIsAlnum_toNat h
    omega
  · decide
  · decide

theorem pyToLowerChar_toNat (c : Char) :
    (pyToLowerChar c).toNat =
      if 65 ≤ c.toNat ∧ c.toNat ≤ 90 then c.toNat + 32
      else if c.toNat = 181 then 956
      else if (192 ≤ c.toNat ∧ c.toNat ≤ 214) ∨
          (216 ≤ c.toNat ∧ c.toNat ≤ 222) then c.toNat + 32
      else c.toNat := by
  unfold pyToLowerChar
  split_ifs with g1 g2 g3
  · exact charOfNat_toNat _ (by omega)
  · exact charOfNat_toNat _ (by omega)
  · exact charOfNat_toNat _ (by omega)
  · rfl

theorem mapped_keyChar {c : Char}
    (h : (pyIsAlnum c || c == '_' || c == '-') = true) :
    keyChar (pyToLowerChar c) = true := by
  have h2 := accepted_toNat h
  unfold keyChar
  apply decide_eq_true
  rw [pyToLowerChar_toNat]
  split_ifs with g1 g2 g3 <;> omega

/-- Under the ASCII ceiling the kept characters lower into the claim's
regex class [a-z0-9_-]. -/
theorem ascii_mapped_sanitary {c : Char} (hc : c.toNat < 128)
    (h : (pyIsAlnum c || c == '_' || c == '-') = true) :
    sanitaryChar (pyToLowerChar c) = true := by
  have h2 := accepted_toNat h
  unfold sanitaryChar
  apply decide_eq_true
  rw [pyToLowerChar_toNat]
  split_ifs with g1 g2 g3 <;> omega

theorem dropWhile_head?_not (p : Char → Bool) (l : List Char) :
    ∀ c, (l.dropWhile p).head? = some c → p c = false := by
  induction l with
  | nil => intro c hc; simp at hc
  | cons a l ih =>
    intro c hc
    rw [List.dropWhile_cons] at hc
    by_cases hp : p a
    · rw [if_pos hp] at hc
      exact ih c hc
    · rw [if_neg hp] at hc
      simp only [List.head?_cons, Option.some.injEq] at hc
      subst hc
      exact Bool.eq_false_iff.mpr hp

theorem stripEnds_head?_not (p : Char → Bool) (l : List Char) :
    ∀ c, (stripEnds p l).head? = some c → p c = false := by
  intro c hc
  unfold stripEnds at hc
  rw [List.head?_reverse] at hc
  obtain ⟨u, hu⟩ := List.dropWhile_suffix (l := (l.dropWhile p).reverse) p
  have hlast : ((l.dropWhile p).reverse.dropWhile p).getLast? = some c := hc
  have hne : (l.dropWhile p).reverse.dropWhile p ≠ [] := by
    intro hnil
    rw [hnil] at hlast
    simp at hlast
  have : ((l.dropWhile p).reverse).getLast? = some c := by
    rw [← hu, List.getLast?_append, hlast]
    rfl
  rw [List.getLast?_reverse] at this
  exact dropWhile_head?_not p l c this

theorem pyToLowerChar_eq_underscore {c : Char} (h : pyToLowerChar c = '_') :
    c = '_' := by
  unfold pyToLowerChar at h
  by_cases g1 : 65 ≤ c.toNat ∧ c.toNat ≤ 90
  · rw [if_pos g1] at h
    have h95 : (Char.ofNat (c.toNat + 32)).toNat = 95 := by rw [h]; decide
    rw [charOfNat_toNat _ (by omega)] at h95
    omega
  · rw [if_neg g1] at h
    by_cases g2 : c.toNat = 181
    · rw [if_pos g2] at h
      have h95 : (Char.ofNat 956).toNat = 95 := by rw [h]; decide
      rw [charOfNat_toNat _ (by omega)] at h95
      omega
    · rw [if_neg g2] at h
      by_cases g3 : (192 ≤ c.toNat ∧ c.toNat ≤ 214) ∨
          (216 ≤ c.toNat ∧ c.toNat ≤ 222)
      · rw [if_pos g3] at h
        have h95 : (Char.ofNat (c.toNat + 32)).toNat = 95 := by rw [h]; decide
        rw [charOfNat_toNat _ (by omega)] at h95
        omega
      · rw [if_neg g3] at h
        exact h

theorem sanitize_length (text : String) :
    (sanitize_for_filename text).data.length ≤ 50 := by
  unfold sanitize_for_filename pySliceTo pyLower pyStripChar
  rw [List.length_take]
  exact min_le_left _ _

theorem sanitize_chars (text : String) :
    ∀ c ∈ (sanitize_for_filename text).data, keyChar c = true := by
  unfold sanitize_for_filename pySliceTo pyLower pyStripChar
  intro c hc
  have hc1 := (List.take_sublist _ _).subset hc
  rw [List.mem_map] at hc1
  obtain ⟨d, hd, hdc⟩ := hc1
  have hd1 := stripEnds_subset _ _ d hd
  rw [List.mem_map] at hd1
  obtain ⟨e, _, hed⟩ := hd1
  subst hdc
  apply mapped_keyChar
  subst hed
  by_cases he : (pyIsAlnum e || e == '_' || e == '-') = true
  · rw [if_pos he]; exact he
  · rw [if_neg he]; decide

theorem sanitize_chars_ascii {text : String}
    (hascii : ∀ c ∈ text.data, c.toNat < 128) :
    ∀ c ∈ (sanitize_for_filename text).data, sanitaryChar c = true := by
  unfold sanitize_for_filename pySliceTo pyLower pyStripChar
  intro c hc
  have hc1 := (List.take_sublist _ _).subset hc
  rw [List.mem_map] at hc1
  obtain ⟨d, hd, hdc⟩ := hc1
  have hd1 := stripEnds_subset _ _ d hd
  rw [List.mem_map] at hd1
  obtain ⟨e, he2, hed⟩ := hd1
  subst hdc
  have hea := hascii e he2
  subst hed
  by_cases he : (pyIsAlnum e || e == '_' || e == '-') = true
  · rw [if_pos he]
    exact ascii_mapped_sanitary hea he
  · rw [if_neg he]
    decide

theorem sanitize_head_not_underscore (text : String) :
    (sanitize_for_filename text).data.head? ≠ some '_' := by
  unfold sanitize_for_filename pySliceTo pyLower pyStripChar
  intro hhead
  rw [List.head?_take] at hhead
  rw [if_neg (by omega)] at hhead
  rw [List.head?_map] at hhead
  cases hs : (stripEnds (fun d => d == '_')
      (text.data.map (fun c =>
        if pyIsAlnum c || c == '_' || c == '-' then c else '_'))).head? with
  | none => rw [hs] at hhead; exact Option.noConfusion hhead
  | some d =>
    rw [hs] at hhead
    have hd := stripEnds_head?_not (fun d => d == '_') _ d hs
    have : d = '_' := pyToLowerChar_eq_underscore (Option.some.inj hhead)
    subst this
    simp at hd

/-- C4 (amended): for ASCII input the sanitizer's output has length at most
50, contains only characters of the class [a-z0-9_-], and never begins with
an underscore.  Two parts of the original claim fail on the code and are
dropped here, each exhibited by the counterexample: the output CAN end in
an underscore (stripping precedes the [:50] truncation, which can re-expose
one), and for non-ASCII input the regex class is wrong (Python's isalnum is
Unicode-aware, so non-ASCII alphanumerics pass through lower-cased). -/
theorem c4_sanitize_amended (text : String)
    (hascii : ∀ c ∈ text.data, c.toNat < 128) :
    (sanitize_for_filename text).data.length ≤ 50 ∧
    (∀ c ∈ (sanitize_for_filename text).data, sanitaryChar c = true) ∧
    (sanitize_for_filename text).data.head? ≠ some '_' :=
  ⟨sanitize_length text, sanitize_chars_ascii hascii,
   sanitize_head_not_underscore text⟩

/-- C4 witness: the amended sanitizer theorem applied at the concrete ASCII
input "Hello World!", the ASCII hypothesis computed. -/
theorem c4_sanitize_amended_witness :
    (sanitize_for_filename "Hello World!").data.length ≤ 50 ∧
    (∀ c ∈ (sanitize_for_filename "Hello World!").data, sanitaryChar c = true) ∧
    (sanitize_for_filename "Hello World!").data.head? ≠ some '_' :=
  c4_sanitize_amended "Hello World!" (by decide)

/-- C4 counterexample, refuting two parts of the original claim.  First, on
the 51-character input of 49 'a's followed by "_b", the sanitizer strips
ends before truncating, so the final [:50] slice exposes a trailing
underscore.  Second, on the input "café" the Unicode-aware isalnum keeps
'é', so the output is "café" itself and violates the ^[a-z0-9_-]{0,50}$
property the claim asserts for every input. -/
theorem c4_counterexample :
    sanitize_for_filename (String.mk (List.replicate 49 'a' ++ ['_', 'b'])) =
      String.mk (List.replicate 49 'a' ++ ['_']) ∧
    (List.replicate 49 'a' ++ ['_']).getLast? = some '_' ∧
    sanitize_for_filename "café" = "café" ∧
    ¬(∀ c ∈ (sanitize_for_filename "café").data, sanitaryChar c = true) := by
  refine ⟨by decide, by decide, by decide, by decide⟩

mutual

/-- JSON values as serialized and parsed by the source through json.dumps and
json.loads.  Numbers are modelled as integers: every numeric field the
program persists is an integer except the Unix-epoch float created_utc,
which is outside the model. -/
inductive Jval : Type where
  | jnull : Jval
  | jbool : Bool → Jval
  | jint : Int → Jval
  | jstr : String → Jval
  | jarr : JList → Jval
  | jobj : JMembers → Jval
  deriving DecidableEq

/-- A JSON array body (mutual with Jval so all recursion is structural). -/
inductive JList : Type where
  | jnil : JList
  | jcons : Jval → JList → JList
  deriving DecidableEq

/-- A JSON object body: an ordered sequence of key/value members, as Python
dicts preserve insertion order. -/
inductive JMembers : Type where
  | mnil : JMembers
  | mcons : String → Jval → JMembers → JMembers
  deriving DecidableEq

end

mutual

/-- Fuel bound sufficient for the parser to consume a dumped value. -/
def Jval.fsize : Jval → Nat
  | .jnull => 1
  | .jbool _ => 1
  | .jint _ => 1
  | .jstr _ => 1
  | .jarr xs => 1 + xs.fsize
  | .jobj ms => 1 + ms.fsize

def JList.fsize : JList → Nat
  | .jnil => 1
  | .jcons v tl => 1 + v.fsize + tl.fsize

def JMembers.fsize : JMembers → Nat
  | .mnil => 1
  | .mcons _ v tl => 2 + v.fsize + tl.fsize

end

/-- Digit character test (ASCII 0-9), as used by the JSON number grammar. -/
def isDigitChar (c : Char) : Bool :=
  decide ('0' ≤ c) && decide (c ≤ '9')

/-- Numeric value of a decimal digit character. -/
def digitVal (c : Char) : Nat := c.toNat - 48

/-- Lower-case hexadecimal digit for n < 16, as json.dumps emits in \u
escapes. -/
def hexChar (n : Nat) : Char :=
  if n < 10 then Char.ofNat (48 + n) else Char.ofNat (87 + n)

/-- Hexadecimal digit test accepted by the \u escape parser. -/
def isHexChar (c : Char) : Bool :=
  (decide ('0' ≤ c) && decide (c ≤ '9')) ||
  (decide ('a' ≤ c) && decide (c ≤ 'f')) ||
  (decide ('A' ≤ c) && decide (c ≤ 'F'))

/-- Numeric value of a hexadecimal digit character. -/
def hexVal (c : Char) : Nat :=
  if c.toNat ≤ 57 then c.toNat - 48
  else if c.toNat ≤ 70 then c.toNat - 55
  else c.toNat - 87

/-- Decimal digits of a natural number, most significant first, with fuel
for structural recursion (fuel larger than n always suffices). -/
def natCharsAux : Nat → Nat → List Char
  | 0, _ => []
  | fuel + 1, n =>
    if n < 10 then [Char.ofNat (48 + n)]
    else natCharsAux fuel (n / 10) ++ [Char.ofNat (48 + n % 10)]

/-- Decimal digits of a natural number, most significant first. -/
def natChars (n : Nat) : List Char := natCharsAux (n + 1) n

/-- Decimal rendering of an integer as json.dumps emits it. -/
def intChars : Int → List Char
  | .ofNat n => natChars n
  | .negSucc n => '-' :: natChars (n + 1)

/-- Escape of one character inside a JSON string, following json.dumps with
ensure_ascii=False: backslash and quote are escaped, control characters use
the short escapes or \u00xx, and every other character is kept literally. -/
def escChar (c : Char) : List Char :=
  if c = '"' then ['\\', '"']
  else if c = '\\' then ['\\', '\\']
  else if c = '\n' then ['\\', 'n']
  else if c = '\t' then ['\\', 't']
  else if c = '\r' then ['\\', 'r']
  else if c = '\x08' then ['\\', 'b']
  else if c = '\x0c' then ['\\', 'f']
  else if c.toNat < 32 then
    ['\\', 'u', '0', '0', hexChar (c.toNat / 16), hexChar (c.toNat % 16)]
  else [c]

/-- A JSON string literal: quote, escaped characters, quote. -/
def encodeJString (s : String) : List Char :=
  '"' :: (s.data.flatMap escChar ++ ['"'])

/-- The indentation emitted at nesting depth k by json.dumps(..., indent=4). -/
def indentChars (k : Nat) : List Char := List.replicate (4 * k) ' '

mutual

/-- Embedding of json.dumps(value, ensure_ascii=False, indent=4) at nesting
depth k, as called by save_data_to_storage (src/agent.py lines 136 and 151). -/
def dumpVal (k : Nat) : Jval → List Char
  | .jnull => ['n', 'u', 'l', 'l']
  | .jbool true => ['t', 'r', 'u', 'e']
  | .jbool false => ['f', 'a', 'l', 's', 'e']
  | .jint i => intChars i
  | .jstr s => encodeJString s
  | .jarr .jnil => ['[', ']']
  | .jarr (.jcons v tl) =>
    '[' :: '\n' :: (indentChars (k + 1) ++ dumpVal (k + 1) v ++
      dumpArrRest (k + 1) tl ++ '\n' :: (indentChars k ++ [']']))
  | .jobj .mnil => ['\x7b', '\x7d']
  | .jobj (.mcons key v tl) =>
    '\x7b' :: '\n' :: (indentChars (k + 1) ++ encodeJString key ++
      ':' :: ' ' :: (dumpVal (k + 1) v ++ dumpObjRest (k + 1) tl ++
        '\n' :: (indentChars k ++ ['\x7d'])))

/-- Remaining items of a non-empty array: ",\n<indent><item>" each. -/
def dumpArrRest (k : Nat) : JList → List Char
  | .jnil => []
  | .jcons v tl =>
    ',' :: '\n' :: (indentChars k ++ dumpVal k v ++ dumpArrRest k tl)

/-- Remaining members of a non-empty object: ",\n<indent><key>: <value>". -/
def dumpObjRest (k : Nat) : JMembers → List Char
  | .mnil => []
  | .mcons key v tl =>
    ',' :: '\n' :: (indentChars k ++ encodeJString key ++
      ':' :: ' ' :: (dumpVal k v ++ dumpObjRest k tl))

end

/-- Whitespace skipped between JSON tokens by the parser. -/
def isJsonWs (c : Char) : Bool :=
  c = ' ' || c = '\t' || c = '\n' || c = '\r'

/-- Skip leading JSON whitespace. -/
def skipWs : List Char → List Char
  | [] => []
  | c :: cs => if isJsonWs c then skipWs cs else c :: cs

/-- Accumulating decimal-number parser: consume a maximal run of digits. -/
def parseNatAcc : List Char → Nat → Nat × List Char
  | [], acc => (acc, [])
  | c :: cs, acc =>
    if isDigitChar c then parseNatAcc cs (acc * 10 + digitVal c)
    else (acc, c :: cs)

/-- Unescape table for the short escapes accepted after a backslash. -/
def unescChar (e : Char) : Option Char :=
  if e = '"' then some '"'
  else if e = '\\' then some '\\'
  else if e = '/' then some '/'
  else if e = 'n' then some '\n'
  else if e = 't' then some '\t'
  else if e = 'r' then some '\r'
  else if e = 'b' then some '\x08'
  else if e = 'f' then some '\x0c'
  else none

/-- Parse the body of a JSON string after the opening quote, returning the
decoded characters and the input after the closing quote. -/
def parseJStringRest : Nat → List Char → Option (List Char × List Char)
  | 0, _ => none
  | fuel + 1, s =>
    match s with
    | [] => none
    | c :: cs =>
      if c = '"' then some ([], cs)
      else if c = '\\' then
        match cs with
        | [] => none
        | e :: cs2 =>
          if e = 'u' then
            match cs2 with
            | h1 :: h2 :: h3 :: h4 :: cs3 =>
              if isHexChar h1 && isHexChar h2 && isHexChar h3 && isHexChar h4 then
                match parseJStringRest fuel cs3 with
                | some (chars, rest) =>
                  some (Char.ofNat (((hexVal h1 * 16 + hexVal h2) * 16 +
                    hexVal h3) * 16 + hexVal h4) :: chars, rest)
                | none => none
              else none
            | _ => none
          else
            match unescChar e with
            | some d =>
              match parseJStringRest fuel cs2 with
              | some (chars, rest) => some (d :: chars, rest)
              | none => none
            | none => none
      else
        match parseJStringRest fuel cs with
        | some (chars, rest) => some (c :: chars, rest)
        | none => none

/-- Parse the tail of the literal null. -/
def parseNullRest (cs : List Char) : Option (Jval × List Char) :=
  if ['u', 'l', 'l'].isPrefixOf cs then some (.jnull, cs.drop 3) else none

/-- Parse the tail of the literal true. -/
def parseTrueRest (cs : List Char) : Option (Jval × List Char) :=
  if ['r', 'u', 'e'].isPrefixOf cs then some (.jbool true, cs.drop 3) else none

/-- Parse the tail of the literal false. -/
def parseFalseRest (cs : List Char) : Option (Jval × List Char) :=
  if ['a', 'l', 's', 'e'].isPrefixOf cs then some (.jbool false, cs.drop 4)
  else none

/-- Parse the tail of a string literal after the opening quote. -/
def parseStrRest (cs : List Char) : Option (Jval × List Char) :=
  match parseJStringRest (cs.length + 1) cs with
  | some (chars, rest) => some (.jstr (String.mk chars), rest)
  | none => none

/-- Parse the digits of a negative number after the minus sign. -/
def parseNegRest (cs : List Char) : Option (Jval × List Char) :=
  match cs with
  | d :: ds =>
    if isDigitChar d then
      match parseNatAcc ds (digitVal d) with
      | (n, rest) => some (.jint (-(n : Int)), rest)
    else none
  | [] => none

/-- Parse an unsigned number starting at digit c. -/
def parsePosRest (c : Char) (cs : List Char) : Option (Jval × List Char) :=
  match parseNatAcc cs (digitVal c) with
  | (n, rest) => some (.jint (n : Int), rest)

mutual

/-- Recursive-descent JSON value parser (model of json.loads).  The input is
expected to start at a value (no leading whitespace); fuel bounds recursion
depth.  Numbers are parsed as integers; fractional and exponent forms, which
the source never writes in the modelled payloads, are rejected. -/
def parseVal : Nat → List Char → Option (Jval × List Char)
  | 0, _ => none
  | fuel + 1, s =>
    match s with
    | [] => none
    | c :: cs =>
      if c = 'n' then parseNullRest cs
      else if c = 't' then parseTrueRest cs
      else if c = 'f' then parseFalseRest cs
      else if c = '"' then parseStrRest cs
      else if c = '[' then parseArrBody fuel (skipWs cs)
      else if c = '\x7b' then parseObjBody fuel (skipWs cs)
      else if c = '-' then parseNegRest cs
      else if isDigitChar c then parsePosRest c cs
      else none

/-- Parse an array body after the opening bracket and whitespace. -/
def parseArrBody : Nat → List Char → Option (Jval × List Char)
  | 0, _ => none
  | _ + 1, ']' :: rest => some (.jarr .jnil, rest)
  | fuel + 1, cs2 =>
    match parseVal fuel cs2 with
    | some (v, rest) =>
      match parseArrRest fuel rest with
      | some (tl, rest2) => some (.jarr (.jcons v tl), rest2)
      | none => none
    | none => none

/-- Parse the items of an array after the first: "," value, ended by "]". -/
def parseArrRest : Nat → List Char → Option (JList × List Char)
  | 0, _ => none
  | fuel + 1, s =>
    match skipWs s with
    | ']' :: rest => some (.jnil, rest)
    | ',' :: rest =>
      match parseVal fuel (skipWs rest) with
      | some (v, rest2) =>
        match parseArrRest fuel rest2 with
        | some (tl, rest3) => some (.jcons v tl, rest3)
        | none => none
      | none => none
    | _ => none

/-- Parse an object body after the opening brace and whitespace. -/
def parseObjBody : Nat → List Char → Option (Jval × List Char)
  | 0, _ => none
  | _ + 1, '\x7d' :: rest => some (.jobj .mnil, rest)
  | fuel + 1, cs2 =>
    match parseMember fuel cs2 with
    | some (key, v, rest) =>
      match parseObjRest fuel rest with
      | some (tl, rest2) => some (.jobj (.mcons key v tl), rest2)
      | none => none
    | none => none

/-- Parse one object member: a string key, ":", then a value. -/
def parseMember : Nat → List Char → Option (String × Jval × List Char)
  | 0, _ => none
  | fuel + 1, s =>
    match s with
    | '"' :: cs =>
      match parseJStringRest (cs.length + 1) cs with
      | some (kchars, rest) =>
        match skipWs rest with
        | ':' :: rest2 =>
          match parseVal fuel (skipWs rest2) with
          | some (v, rest3) => some (String.mk kchars, v, rest3)
          | none => none
        | _ => none
      | none => none
    | _ => none

/-- Parse the members of an object after the first, ended by "}". -/
def parseObjRest : Nat → List Char → Option (JMembers × List Char)
  | 0, _ => none
  | fuel + 1, s =>
    match skipWs s with
    | '\x7d' :: rest => some (.mnil, rest)
    | ',' :: rest =>
      match parseMember fuel (skipWs rest) with
      | some (key, v, rest2) =>
        match parseObjRest fuel rest2 with
        | some (tl, rest3) => some (.mcons key v tl, rest3)
        | none => none
      | none => none
    | _ => none

end

/-- Embedding of json.dumps(value, ensure_ascii=False, indent=4) as a
string, as save_data_to_storage serializes the payload. -/
def jsonDumps (v : Jval) : String := String.mk (dumpVal 0 v)

/-- Embedding of json.loads: skip surrounding whitespace, parse one value,
and fail unless the rest of the input is whitespace. -/
def jsonLoads (s : String) : Option Jval :=
  match parseVal (s.data.length + 1) (skipWs s.data) with
  | some (v, rest) => if skipWs rest = [] then some v else none
  | none => none

/-- The input does not start with a decimal digit (so a preceding number
token cannot absorb it). -/
def noDigitHead : List Char → Prop
  | [] => True
  | c :: _ => isDigitChar c = false

theorem noDigitHead_nil : noDigitHead [] := trivial

theorem noDigitHead_cons {c : Char} (h : isDigitChar c = false) (cs : List Char) :
    noDigitHead (c :: cs) := h

theorem skipWs_cons (c : Char) (cs : List Char) :
    skipWs (c :: cs) = if isJsonWs c then skipWs cs else c :: cs := rfl

theorem skipWs_cons_of_ws {c : Char} (h : isJsonWs c = true) (cs : List Char) :
    skipWs (c :: cs) = skipWs cs := by
  rw [skipWs_cons, if_pos h]

theorem skipWs_cons_of_not_ws {c : Char} (h : isJsonWs c = false) (cs : List Char) :
    skipWs (c :: cs) = c :: cs := by
  rw [skipWs_cons, if_neg (by simp [h])]

theorem skipWs_replicate_space (n : Nat) (s : List Char) :
    skipWs (List.replicate n ' ' ++ s) = skipWs s := by
  induction n with
  | zero => rfl
  | succ n ih =>
    rw [List.replicate_succ, List.cons_append, skipWs_cons_of_ws (by decide)]
    exact ih

theorem skipWs_indent (k : Nat) (s : List Char) :
    skipWs (indentChars k ++ s) = skipWs s :=
  skipWs_replicate_space (4 * k) s

theorem skipWs_newline (s : List Char) : skipWs ('\n' :: s) = skipWs s :=
  skipWs_cons_of_ws (by decide) s

theorem isPrefixOf_append (l r : List Char) : l.isPrefixOf (l ++ r) = true := by
  induction l with
  | nil => simp [List.isPrefixOf]
  | cons c cs ih => simp [List.isPrefixOf, ih]

theorem digitVal_ofNat {n : Nat} (h : n < 10) :
    digitVal (Char.ofNat (48 + n)) = n := by
  unfold digitVal
  rw [charOfNat_toNat (48 + n) (by omega)]
  omega

theorem isDigitChar_ofNat {n : Nat} (h : n < 10) :
    isDigitChar (Char.ofNat (48 + n)) = true := by
  unfold isDigitChar
  have hv : (Char.ofNat (48 + n)).toNat = 48 + n := charOfNat_toNat _ (by omega)
  simp only [Bool.and_eq_true, decide_eq_true_eq]
  constructor
  · show 48 ≤ (Char.ofNat (48 + n)).toNat
    omega
  · show (Char.ofNat (48 + n)).toNat ≤ 57
    omega

theorem isDigitChar_toNat {c : Char} (h : isDigitChar c = true) :
    48 ≤ c.toNat ∧ c.toNat ≤ 57 := by
  unfold isDigitChar at h
  simp only [Bool.and_eq_true, decide_eq_true_eq] at h
  exact ⟨h.1, h.2⟩

theorem isDigitChar_ne {c : Char} (h : isDigitChar c = true) {d : Char}
    (hd : isDigitChar d = false) : c ≠ d := by
  intro he
  subst he
  rw [h] at hd
  exact Bool.noConfusion hd

theorem natCharsAux_digits :
    ∀ fuel n, n < fuel → ∀ c ∈ natCharsAux fuel n, isDigitChar c = true := by
  intro fuel
  induction fuel with
  | zero => intro n hn; omega
  | succ fuel ih =>
    intro n hn c hc
    unfold natCharsAux at hc
    by_cases h10 : n < 10
    · rw [if_pos h10] at hc
      simp only [List.mem_singleton] at hc
      subst hc
      exact isDigitChar_ofNat h10
    · rw [if_neg h10] at hc
      rw [List.mem_append] at hc
      rcases hc with hc | hc
      · exact ih (n / 10) (by omega) c hc
      · simp only [List.mem_singleton] at hc
        subst hc
        exact isDigitChar_ofNat (Nat.mod_lt n (by omega))

theorem natCharsAux_ne_nil :
    ∀ fuel n, n < fuel → natCharsAux fuel n ≠ [] := by
  intro fuel
  cases fuel with
  | zero => intro n hn; omega
  | succ fuel =>
    intro n hn
    unfold natCharsAux
    by_cases h10 : n < 10
    · rw [if_pos h10]
      simp
    · rw [if_neg h10]
      simp

theorem natCharsAux_foldl :
    ∀ fuel n acc, n < fuel →
      List.foldl (fun a c => a * 10 + digitVal c) acc (natCharsAux fuel n) =
        acc * 10 ^ (natCharsAux fuel n).length + n := by
  intro fuel
  induction fuel with
  | zero => intro n acc hn; omega
  | succ fuel ih =>
    intro n acc hn
    unfold natCharsAux
    by_cases h10 : n < 10
    · rw [if_pos h10]
      simp [digitVal_ofNat h10]
    · rw [if_neg h10]
      rw [List.foldl_append, List.length_append]
      rw [ih (n / 10) acc (by omega)]
      simp only [List.foldl_cons, List.foldl_nil, List.length_singleton]
      rw [digitVal_ofNat (Nat.mod_lt n (by omega))]
      rw [pow_succ]
      have : n = 10 * (n / 10) + n % 10 := (Nat.div_add_mod' n 10).symm ▸ by omega
      ring_nf
      omega

theorem parseNatAcc_cons (c : Char) (cs : List Char) (acc : Nat) :
    parseNatAcc (c :: cs) acc =
      if isDigitChar c then parseNatAcc cs (acc * 10 + digitVal c)
      else (acc, c :: cs) := rfl

theorem parseNatAcc_digits :
    ∀ (ds : List Char) (acc : Nat) (rest : List Char),
      (∀ c ∈ ds, isDigitChar c = true) → noDigitHead rest →
      parseNatAcc (ds ++ rest) acc =
        (List.foldl (fun a c => a * 10 + digitVal c) acc ds, rest) := by
  intro ds
  induction ds with
  | nil =>
    intro acc rest _ hrest
    cases rest with
    | nil => rfl
    | cons c cs =>
      rw [List.nil_append, parseNatAcc_cons,
        if_neg (by simp [show isDigitChar c = false from hrest]),
        List.foldl_nil]
  | cons d ds ih =>
    intro acc rest hds hrest
    rw [List.cons_append, parseNatAcc_cons,
      if_pos (hds d (List.mem_cons_self d ds))]
    rw [ih _ rest (fun c hc => hds c (List.mem_cons_of_mem d hc)) hrest]
    rfl

theorem parseVal_cons (fuel : Nat) (c : Char) (cs : List Char) :
    parseVal (fuel + 1) (c :: cs) =
      if c = 'n' then parseNullRest cs
      else if c = 't' then parseTrueRest cs
      else if c = 'f' then parseFalseRest cs
      else if c = '"' then parseStrRest cs
      else if c = '[' then parseArrBody fuel (skipWs cs)
      else if c = '\x7b' then parseObjBody fuel (skipWs cs)
      else if c = '-' then parseNegRest cs
      else if isDigitChar c then parsePosRest c cs
      else none := rfl

theorem natChars_shape (n : Nat) :
    ∃ d ds, natChars n = d :: ds ∧ isDigitChar d = true ∧
      ∀ c ∈ ds, isDigitChar c = true := by
  have hne := natCharsAux_ne_nil (n + 1) n (by omega)
  have hdig := natCharsAux_digits (n + 1) n (by omega)
  unfold natChars
  cases hl : natCharsAux (n + 1) n with
  | nil => exact absurd hl hne
  | cons d ds =>
    refine ⟨d, ds, rfl, ?_, ?_⟩
    · exact hdig d (by rw [hl]; exact List.mem_cons_self d ds)
    · intro c hc
      exact hdig c (by rw [hl]; exact List.mem_cons_of_mem d hc)

theorem natChars_foldl (n : Nat) :
    List.foldl (fun a c => a * 10 + digitVal c) 0 (natChars n) = n := by
  have := natCharsAux_foldl (n + 1) n 0 (by omega)
  unfold natChars
  simpa using this

theorem parsePos_natChars (fuel : Nat) (n : Nat) (rest : List Char)
    (hrest : noDigitHead rest) :
    parseVal (fuel + 1) (natChars n ++ rest) = some (.jint (n : Int), rest) := by
  obtain ⟨d, ds, hshape, hd, hds⟩ := natChars_shape n
  rw [hshape, List.cons_append, parseVal_cons]
  rw [if_neg (isDigitChar_ne hd (by decide)),
    if_neg (isDigitChar_ne hd (by decide)),
    if_neg (isDigitChar_ne hd (by decide)),
    if_neg (isDigitChar_ne hd (by decide)),
    if_neg (isDigitChar_ne hd (by decide)),
    if_neg (isDigitChar_ne hd (by decide)),
    if_neg (isDigitChar_ne hd (by decide)),
    if_pos hd]
  unfold parsePosRest
  rw [parseNatAcc_digits ds (digitVal d) rest hds hrest]
  have hval : List.foldl (fun a c => a * 10 + digitVal c) (digitVal d) ds = n := by
    have h0 := natChars_foldl n
    rw [hshape] at h0
    simpa using h0
  rw [hval]

theorem parseInt_intChars (fuel : Nat) (i : Int) (rest : List Char)
    (hrest : noDigitHead rest) :
    parseVal (fuel + 1) (intChars i ++ rest) = some (.jint i, rest) := by
  cases i with
  | ofNat n => exact parsePos_natChars fuel n rest hrest
  | negSucc n =>
    show parseVal (fuel + 1) ('-' :: (natChars (n + 1) ++ rest)) = _
    obtain ⟨d, ds, hshape, hd, hds⟩ := natChars_shape (n + 1)
    rw [parseVal_cons]
    rw [if_neg (by decide), if_neg (by decide), if_neg (by decide),
      if_neg (by decide), if_neg (by decide), if_neg (by decide),
      if_pos rfl]
    rw [hshape, List.cons_append]
    rw [show parseNegRest (d :: (ds ++ rest)) =
      (if isDigitChar d then
        match parseNatAcc (ds ++ rest) (digitVal d) with
        | (n, rest) => some (.jint (-(n : Int)), rest)
      else none) from rfl]
    rw [if_pos hd]
    rw [parseNatAcc_digits ds (digitVal d) rest hds hrest]
    have hval : List.foldl (fun a c => a * 10 + digitVal c) (digitVal d) ds =
        n + 1 := by
      have h0 := natChars_foldl (n + 1)
      rw [hshape] at h0
      simpa using h0
    rw [hval]
    simp only [Option.some.injEq, Prod.mk.injEq, Jval.jint.injEq]
    refine ⟨?_, trivial⟩
    rw [Int.negSucc_eq]
    push_cast
    ring

theorem hexVal_hexChar : ∀ m, m < 16 → hexVal (hexChar m) = m := by decide

theorem isHexChar_hexChar : ∀ m, m < 16 → isHexChar (hexChar m) = true := by
  decide

theorem parseJStringRest_cons (fuel : Nat) (c : Char) (cs : List Char) :
    parseJStringRest (fuel + 1) (c :: cs) =
      (if c = '"' then some ([], cs)
      else if c = '\\' then
        match cs with
        | [] => none
        | e :: cs2 =>
          if e = 'u' then
            match cs2 with
            | h1 :: h2 :: h3 :: h4 :: cs3 =>
              if isHexChar h1 && isHexChar h2 && isHexChar h3 && isHexChar h4 then
                match parseJStringRest fuel cs3 with
                | some (chars, rest) =>
                  some (Char.ofNat (((hexVal h1 * 16 + hexVal h2) * 16 +
                    hexVal h3) * 16 + hexVal h4) :: chars, rest)
                | none => none
              else none
            | _ => none
          else
            match unescChar e with
            | some d =>
              match parseJStringRest fuel cs2 with
              | some (chars, rest) => some (d :: chars, rest)
              | none => none
            | none => none
      else
        match parseJStringRest fuel cs with
        | some (chars, rest) => some (c :: chars, rest)
        | none => none) := rfl

theorem parseJStringRest_quote (fuel : Nat) (cs : List Char) :
    parseJStringRest (fuel + 1) ('"' :: cs) = some ([], cs) := rfl

theorem parseJStringRest_lit (fuel : Nat) {c : Char} (h1 : ¬(c = '"'))
    (h2 : ¬(c = '\\')) (cs : List Char) :
    parseJStringRest (fuel + 1) (c :: cs) =
      match parseJStringRest fuel cs with
      | some (chars, rest) => some (c :: chars, rest)
      | none => none := by
  rw [parseJStringRest_cons, if_neg h1, if_neg h2]

theorem parseJStringRest_flatMap :
    ∀ (cs : List Char) (fuel : Nat) (rest : List Char),
      cs.length + 1 ≤ fuel →
      parseJStringRest fuel (cs.flatMap escChar ++ '"' :: rest) =
        some (cs, rest) := by
  intro cs
  induction cs with
  | nil =>
    intro fuel rest hfuel
    obtain ⟨m, rfl⟩ : ∃ m, fuel = m + 1 := ⟨fuel - 1, by omega⟩
    rw [List.flatMap_nil, List.nil_append, parseJStringRest_quote]
  | cons c cs ih =>
    intro fuel rest hfuel
    obtain ⟨m, rfl⟩ : ∃ m, fuel = m + 1 := ⟨fuel - 1, by omega⟩
    have hm : cs.length + 1 ≤ m := by
      simp only [List.length_cons] at hfuel
      omega
    rw [List.flatMap_cons, List.append_assoc]
    by_cases h1 : c = '"'
    · subst h1
      rw [show escChar '"' = ['\\', '"'] from rfl]
      rw [show (['\\', '"'] : List Char) ++ (cs.flatMap escChar ++ '"' :: rest) =
        '\\' :: '"' :: (cs.flatMap escChar ++ '"' :: rest) from rfl]
      rw [show parseJStringRest (m + 1)
          ('\\' :: '"' :: (cs.flatMap escChar ++ '"' :: rest)) =
        (match parseJStringRest m (cs.flatMap escChar ++ '"' :: rest) with
        | some (chars, r2) => some ('"' :: chars, r2)
        | none => none) from rfl]
      rw [ih m rest hm]
    by_cases h2 : c = '\\'
    · subst h2
      rw [show escChar '\\' = ['\\', '\\'] from rfl]
      rw [show (['\\', '\\'] : List Char) ++ (cs.flatMap escChar ++ '"' :: rest) =
        '\\' :: '\\' :: (cs.flatMap escChar ++ '"' :: rest) from rfl]
      rw [show parseJStringRest (m + 1)
          ('\\' :: '\\' :: (cs.flatMap escChar ++ '"' :: rest)) =
        (match parseJStringRest m (cs.flatMap escChar ++ '"' :: rest) with
        | some (chars, r2) => some ('\\' :: chars, r2)
        | none => none) from rfl]
      rw [ih m rest hm]
    by_cases h3 : c = '\n'
    · subst h3
      rw [show escChar '\n' = ['\\', 'n'] from rfl]
      rw [show (['\\', 'n'] : List Char) ++ (cs.flatMap escChar ++ '"' :: rest) =
        '\\' :: 'n' :: (cs.flatMap escChar ++ '"' :: rest) from rfl]
      rw [show parseJStringRest (m + 1)
          ('\\' :: 'n' :: (cs.flatMap escChar ++ '"' :: rest)) =
        (match parseJStringRest m (cs.flatMap escChar ++ '"' :: rest) with
        | some (chars, r2) => some ('\n' :: chars, r2)
        | none => none) from rfl]
      rw [ih m rest hm]
    by_cases h4 : c = '\t'
    · subst h4
      rw [show escChar '\t' = ['\\', 't'] from rfl]
      rw [show (['\\', 't'] : List Char) ++ (cs.flatMap escChar ++ '"' :: rest) =
        '\\' :: 't' :: (cs.flatMap escChar ++ '"' :: rest) from rfl]
      rw [show parseJStringRest (m + 1)
          ('\\' :: 't' :: (cs.flatMap escChar ++ '"' :: rest)) =
        (match parseJStringRest m (cs.flatMap escChar ++ '"' :: rest) with
        | some (chars, r2) => some ('\t' :: chars, r2)
        | none => none) from rfl]
      rw [ih m rest hm]
    by_cases h5 : c = '\r'
    · subst h5
      rw [show escChar '\r' = ['\\', 'r'] from rfl]
      rw [show (['\\', 'r'] : List Char) ++ (cs.flatMap escChar ++ '"' :: rest) =
        '\\' :: 'r' :: (cs.flatMap escChar ++ '"' :: rest) from rfl]
      rw [show parseJStringRest (m + 1)
          ('\\' :: 'r' :: (cs.flatMap escChar ++ '"' :: rest)) =
        (match parseJStringRest m (cs.flatMap escChar ++ '"' :: rest) with
        | some (chars, r2) => some ('\r' :: chars, r2)
        | none => none) from rfl]
      rw [ih m rest hm]
    by_cases h6 : c = '\x08'
    · subst h6
      rw [show escChar '\x08' = ['\\', 'b'] from rfl]
      rw [show (['\\', 'b'] : List Char) ++ (cs.flatMap escChar ++ '"' :: rest) =
        '\\' :: 'b' :: (cs.flatMap escChar ++ '"' :: rest) from rfl]
      rw [show parseJStringRest (m + 1)
          ('\\' :: 'b' :: (cs.flatMap escChar ++ '"' :: rest)) =
        (match parseJStringRest m (cs.flatMap escChar ++ '"' :: rest) with
        | some (chars, r2) => some ('\x08' :: chars, r2)
        | none => none) from rfl]
      rw [ih m rest hm]
    by_cases h7 : c = '\x0c'
    · subst h7
      rw [show escChar '\x0c' = ['\\', 'f'] from rfl]
      rw [show (['\\', 'f'] : List Char) ++ (cs.flatMap escChar ++ '"' :: rest) =
        '\\' :: 'f' :: (cs.flatMap escChar ++ '"' :: rest) from rfl]
      rw [show parseJStringRest (m + 1)
          ('\\' :: 'f' :: (cs.flatMap escChar ++ '"' :: rest)) =
        (match parseJStringRest m (cs.flatMap escChar ++ '"' :: rest) with
        | some (chars, r2) => some ('\x0c' :: chars, r2)
        | none => none) from rfl]
      rw [ih m rest hm]
    by_cases h8 : c.toNat < 32
    · have hesc : escChar c = ['\\', 'u', '0', '0', hexChar (c.toNat / 16),
          hexChar (c.toNat % 16)] := by
        unfold escChar
        rw [if_neg h1, if_neg h2, if_neg h3, if_neg h4, if_neg h5, if_neg h6,
          if_neg h7, if_pos h8]
      rw [hesc]
      rw [show (['\\', 'u', '0', '0', hexChar (c.toNat / 16),
          hexChar (c.toNat % 16)] : List Char) ++
            (cs.flatMap escChar ++ '"' :: rest) =
        '\\' :: 'u' :: '0' :: '0' :: hexChar (c.toNat / 16) ::
          hexChar (c.toNat % 16) :: (cs.flatMap escChar ++ '"' :: rest) from rfl]
      rw [show parseJStringRest (m + 1)
          ('\\' :: 'u' :: '0' :: '0' :: hexChar (c.toNat / 16) ::
            hexChar (c.toNat % 16) :: (cs.flatMap escChar ++ '"' :: rest)) =
        (if (isHexChar '0' && isHexChar '0' && isHexChar (hexChar (c.toNat / 16)) &&
            isHexChar (hexChar (c.toNat % 16))) = true then
          match parseJStringRest m (cs.flatMap escChar ++ '"' :: rest) with
          | some (chars, r2) =>
            some (Char.ofNat (((hexVal '0' * 16 + hexVal '0') * 16 +
              hexVal (hexChar (c.toNat / 16))) * 16 +
                hexVal (hexChar (c.toNat % 16))) :: chars, r2)
          | none => none
        else none) from rfl]
      rw [if_pos (by
        rw [isHexChar_hexChar (c.toNat / 16) (by omega),
          isHexChar_hexChar (c.toNat % 16) (by omega)]
        decide)]
      rw [ih m rest hm]
      rw [show hexVal '0' = 0 from rfl]
      rw [hexVal_hexChar (c.toNat / 16) (by omega),
        hexVal_hexChar (c.toNat % 16) (by omega)]
      rw [show ((0 * 16 + 0) * 16 + c.toNat / 16) * 16 + c.toNat % 16 =
        c.toNat from by omega]
      rw [Char.ofNat_toNat]
    · have hesc : escChar c = [c] := by
        unfold escChar
        rw [if_neg h1, if_neg h2, if_neg h3, if_neg h4, if_neg h5, if_neg h6,
          if_neg h7, if_neg h8]
      rw [hesc]
      rw [show ([c] : List Char) ++ (cs.flatMap escChar ++ '"' :: rest) =
        c :: (cs.flatMap escChar ++ '"' :: rest) from rfl]
      rw [parseJStringRest_lit m h1 h2]
      rw [ih m rest hm]

theorem flatMap_escChar_length_ge (cs : List Char) :
    cs.length ≤ (cs.flatMap escChar).length := by
  induction cs with
  | nil => simp
  | cons c cs ih =>
    rw [List.flatMap_cons, List.length_append]
    have h1 : 1 ≤ (escChar c).length := by
      unfold escChar
      split_ifs <;> simp
    simp only [List.length_cons]
    omega

theorem parseStrRest_encode (s : String) (rest : List Char) :
    parseStrRest (s.data.flatMap escChar ++ '"' :: rest) =
      some (.jstr s, rest) := by
  unfold parseStrRest
  rw [parseJStringRest_flatMap s.data _ rest (by
    have := flatMap_escChar_length_ge s.data
    simp only [List.length_append, List.length_cons]
    omega)]

theorem parseArrBody_close (fuel : Nat) (rest : List Char) :
    parseArrBody (fuel + 1) (']' :: rest) = some (.jarr .jnil, rest) := rfl

theorem parseArrBody_cons_ne (fuel : Nat) {c : Char} (h : ¬(c = ']'))
    (cs : List Char) :
    parseArrBody (fuel + 1) (c :: cs) =
      match parseVal fuel (c :: cs) with
      | some (v, rest) =>
        match parseArrRest fuel rest with
        | some (tl, rest2) => some (.jarr (.jcons v tl), rest2)
        | none => none
      | none => none := by
  unfold parseArrBody
  split
  · omega
  · next heq =>
    rw [List.cons_eq_cons] at heq
    exact absurd heq.1 h
  · next a b f2 heq hne =>
    obtain rfl : f2 = fuel := by omega
    rfl

theorem parseObjBody_close (fuel : Nat) (rest : List Char) :
    parseObjBody (fuel + 1) ('\x7d' :: rest) = some (.jobj .mnil, rest) := rfl

theorem parseObjBody_cons_ne (fuel : Nat) {c : Char} (h : ¬(c = '\x7d'))
    (cs : List Char) :
    parseObjBody (fuel + 1) (c :: cs) =
      match parseMember fuel (c :: cs) with
      | some (key, v, rest) =>
        match parseObjRest fuel rest with
        | some (tl, rest2) => some (.jobj (.mcons key v tl), rest2)
        | none => none
      | none => none := by
  unfold parseObjBody
  split
  · omega
  · next heq =>
    rw [List.cons_eq_cons] at heq
    exact absurd heq.1 h
  · next a b f2 heq hne =>
    obtain rfl : f2 = fuel := by omega
    rfl

theorem parseArrRest_succ (F : Nat) (s : List Char) :
    parseArrRest (F + 1) s =
      match skipWs s with
      | ']' :: rest => some (.jnil, rest)
      | ',' :: rest =>
        match parseVal F (skipWs rest) with
        | some (v, rest2) =>
          match parseArrRest F rest2 with
          | some (tl, rest3) => some (.jcons v tl, rest3)
          | none => none
        | none => none
      | _ => none := rfl

theorem parseObjRest_succ (F : Nat) (s : List Char) :
    parseObjRest (F + 1) s =
      match skipWs s with
      | '\x7d' :: rest => some (.mnil, rest)
      | ',' :: rest =>
        match parseMember F (skipWs rest) with
        | some (key, v, rest2) =>
          match parseObjRest F rest2 with
          | some (tl, rest3) => some (.mcons key v tl, rest3)
          | none => none
        | none => none
      | _ => none := rfl

theorem parseMember_cons (F : Nat) (cs : List Char) :
    parseMember (F + 1) ('"' :: cs) =
      match parseJStringRest (cs.length + 1) cs with
      | some (kchars, rest) =>
        match skipWs rest with
        | ':' :: rest2 =>
          match parseVal F (skipWs rest2) with
          | some (v, rest3) => some (String.mk kchars, v, rest3)
          | none => none
        | _ => none
      | none => none := rfl

theorem jval_fsize_pos (v : Jval) : 1 ≤ v.fsize := by
  cases v <;> simp [Jval.fsize]

theorem jlist_fsize_pos (tl : JList) : 1 ≤ tl.fsize := by
  cases tl <;> simp [JList.fsize] <;> omega

theorem jmembers_fsize_pos (ms : JMembers) : 1 ≤ ms.fsize := by
  cases ms <;> simp [JMembers.fsize] <;> omega

theorem isJsonWs_of_digit {c : Char} (h : isDigitChar c = true) :
    isJsonWs c = false := by
  obtain ⟨h1, h2⟩ := isDigitChar_toNat h
  unfold isJsonWs
  have e1 : ¬(c = ' ') := fun he => absurd (he ▸ h1) (by decide)
  have e2 : ¬(c = '\t') := fun he => absurd (he ▸ h1) (by decide)
  have e3 : ¬(c = '\n') := fun he => absurd (he ▸ h1) (by decide)
  have e4 : ¬(c = '\r') := fun he => absurd (he ▸ h1) (by decide)
  rw [decide_eq_false e1, decide_eq_false e2, decide_eq_false e3,
    decide_eq_false e4]
  rfl

/-- Every dumped JSON value starts with a non-whitespace character that is
not a closing bracket. -/
theorem dumpVal_head (k : Nat) (v : Jval) :
    ∃ c cs, dumpVal k v = c :: cs ∧ isJsonWs c = false ∧ ¬(c = ']') := by
  cases v with
  | jnull => exact ⟨'n', _, rfl, by decide, by decide⟩
  | jbool b =>
    cases b with
    | true => exact ⟨'t', _, rfl, by decide, by decide⟩
    | false => exact ⟨'f', _, rfl, by decide, by decide⟩
  | jint i =>
    cases i with
    | ofNat n =>
      obtain ⟨d, ds, hshape, hd, _⟩ := natChars_shape n
      refine ⟨d, ds, ?_, isJsonWs_of_digit hd, isDigitChar_ne hd (by decide)⟩
      rw [show dumpVal k (.jint (.ofNat n)) = natChars n from rfl, hshape]
    | negSucc n => exact ⟨'-', _, rfl, by decide, by decide⟩
  | jstr s => exact ⟨'"', _, rfl, by decide, by decide⟩
  | jarr xs =>
    cases xs with
    | jnil => exact ⟨'[', _, rfl, by decide, by decide⟩
    | jcons v tl => exact ⟨'[', _, rfl, by decide, by decide⟩
  | jobj ms =>
    cases ms with
    | mnil => exact ⟨'\x7b', _, rfl, by decide, by decide⟩
    | mcons key v tl => exact ⟨'\x7b', _, rfl, by decide, by decide⟩

theorem skipWs_dumpVal (k : Nat) (v : Jval) (rest : List Char) :
    skipWs (dumpVal k v ++ rest) = dumpVal k v ++ rest := by
  obtain ⟨c, cs, hshape, hws, _⟩ := dumpVal_head k v
  rw [hshape, List.cons_append, skipWs_cons_of_not_ws hws]

theorem noDigitHead_dumpArrRest (k : Nat) (tl : JList) (z : List Char) :
    noDigitHead (dumpArrRest k tl ++ '\n' :: z) := by
  cases tl with
  | jnil => exact noDigitHead_cons (by decide) _
  | jcons v tl2 => exact noDigitHead_cons (by decide) _

theorem noDigitHead_dumpObjRest (k : Nat) (ms : JMembers) (z : List Char) :
    noDigitHead (dumpObjRest k ms ++ '\n' :: z) := by
  cases ms with
  | mnil => exact noDigitHead_cons (by decide) _
  | mcons key v tl2 => exact noDigitHead_cons (by decide) _

theorem stringMk_data (s : String) : String.mk s.data = s := rfl

theorem parse_dump_all :
    ∀ fuel : Nat,
      (∀ (v : Jval) (k : Nat) (rest : List Char), v.fsize ≤ fuel →
        noDigitHead rest →
        parseVal fuel (dumpVal k v ++ rest) = some (v, rest)) ∧
      (∀ (tl : JList) (k k2 : Nat) (rest : List Char), tl.fsize ≤ fuel →
        parseArrRest fuel
          (dumpArrRest k tl ++ '\n' :: (indentChars k2 ++ ']' :: rest)) =
          some (tl, rest)) ∧
      (∀ (ms : JMembers) (k k2 : Nat) (rest : List Char), ms.fsize ≤ fuel →
        parseObjRest fuel
          (dumpObjRest k ms ++ '\n' :: (indentChars k2 ++ '\x7d' :: rest)) =
          some (ms, rest)) := by
  intro fuel
  induction fuel using Nat.strong_induction_on with
  | _ fuel ih =>
  refine ⟨?_, ?_, ?_⟩
  · intro v k rest hsz hrest
    obtain ⟨m, rfl⟩ : ∃ m, fuel = m + 1 :=
      ⟨fuel - 1, by have := jval_fsize_pos v; omega⟩
    cases v with
    | jnull =>
      rw [show dumpVal k .jnull ++ rest =
        'n' :: (['u', 'l', 'l'] ++ rest) from rfl]
      rw [parseVal_cons, if_pos rfl]
      unfold parseNullRest
      rw [if_pos (isPrefixOf_append _ _)]
      rfl
    | jbool b =>
      cases b with
      | true =>
        rw [show dumpVal k (.jbool true) ++ rest =
          't' :: (['r', 'u', 'e'] ++ rest) from rfl]
        rw [parseVal_cons, if_neg (by decide), if_pos rfl]
        unfold parseTrueRest
        rw [if_pos (isPrefixOf_append _ _)]
        rfl
      | false =>
        rw [show dumpVal k (.jbool false) ++ rest =
          'f' :: (['a', 'l', 's', 'e'] ++ rest) from rfl]
        rw [parseVal_cons, if_neg (by decide), if_neg (by decide), if_pos rfl]
        unfold parseFalseRest
        rw [if_pos (isPrefixOf_append _ _)]
        rfl
    | jint i =>
      rw [show dumpVal k (.jint i) = intChars i from rfl]
      exact parseInt_intChars m i rest hrest
    | jstr s =>
      have hshape : dumpVal k (.jstr s) ++ rest =
          '"' :: (s.data.flatMap escChar ++ '"' :: rest) := by
        show ('"' :: (s.data.flatMap escChar ++ ['"'])) ++ rest = _
        rw [List.cons_append, List.append_assoc]
        rfl
      rw [hshape, parseVal_cons, if_neg (by decide), if_neg (by decide),
        if_neg (by decide), if_pos rfl]
      exact parseStrRest_encode s rest
    | jarr xs =>
      cases xs with
      | jnil =>
        rw [show dumpVal k (.jarr .jnil) ++ rest = '[' :: (']' :: rest) from rfl]
        rw [parseVal_cons, if_neg (by decide), if_neg (by decide),
          if_neg (by decide), if_neg (by decide), if_pos rfl]
        rw [skipWs_cons_of_not_ws (by decide)]
        obtain ⟨m2, rfl⟩ : ∃ m2, m = m2 + 1 := ⟨m - 1, by
          simp [Jval.fsize, JList.fsize] at hsz
          omega⟩
        exact parseArrBody_close m2 rest
      | jcons v tl =>
        have hfv := jval_fsize_pos v
        have hftl := jlist_fsize_pos tl
        have hsz2 : 2 + v.fsize + tl.fsize ≤ m + 1 := by
          simp only [Jval.fsize, JList.fsize] at hsz
          omega
        obtain ⟨m2, rfl⟩ : ∃ m2, m = m2 + 1 := ⟨m - 1, by omega⟩
        have hshape : dumpVal k (.jarr (.jcons v tl)) ++ rest =
            '[' :: ('\n' :: (indentChars (k + 1) ++ (dumpVal (k + 1) v ++
              (dumpArrRest (k + 1) tl ++
                '\n' :: (indentChars k ++ ']' :: rest))))) := by
          show ('[' :: '\n' :: (indentChars (k + 1) ++ dumpVal (k + 1) v ++
            dumpArrRest (k + 1) tl ++ '\n' :: (indentChars k ++ [']']))) ++
              rest = _
          simp [List.append_assoc]
        rw [hshape, parseVal_cons, if_neg (by decide), if_neg (by decide),
          if_neg (by decide), if_neg (by decide), if_pos rfl]
        rw [skipWs_newline, skipWs_indent, skipWs_dumpVal]
        obtain ⟨c, cs, hhead, hws, hbr⟩ := dumpVal_head (k + 1) v
        rw [hhead, List.cons_append, parseArrBody_cons_ne m2 hbr]
        rw [← List.cons_append, ← hhead]
        have e1 := (ih m2 (by omega)).1 v (k + 1)
          (dumpArrRest (k + 1) tl ++ '\n' :: (indentChars k ++ ']' :: rest))
          (by omega) (noDigitHead_dumpArrRest (k + 1) tl _)
        have e2 := (ih m2 (by omega)).2.1 tl (k + 1) k rest (by omega)
        simp only [e1, e2]
    | jobj ms =>
      cases ms with
      | mnil =>
        rw [show dumpVal k (.jobj .mnil) ++ rest =
          '\x7b' :: ('\x7d' :: rest) from rfl]
        rw [parseVal_cons, if_neg (by decide), if_neg (by decide),
          if_neg (by decide), if_neg (by decide), if_neg (by decide),
          if_pos rfl]
        rw [skipWs_cons_of_not_ws (by decide)]
        obtain ⟨m2, rfl⟩ : ∃ m2, m = m2 + 1 := ⟨m - 1, by
          simp [Jval.fsize, JMembers.fsize] at hsz
          omega⟩
        exact parseObjBody_close m2 rest
      | mcons key v tl =>
        have hfv := jval_fsize_pos v
        have hftl := jmembers_fsize_pos tl
        have hsz2 : 3 + v.fsize + tl.fsize ≤ m + 1 := by
          simp only [Jval.fsize, JMembers.fsize] at hsz
          omega
        obtain ⟨m2, rfl⟩ : ∃ m2, m = m2 + 1 := ⟨m - 1, by omega⟩
        obtain ⟨m3, rfl⟩ : ∃ m3, m2 = m3 + 1 := ⟨m2 - 1, by omega⟩
        have hshape : dumpVal k (.jobj (.mcons key v tl)) ++ rest =
            '\x7b' :: ('\n' :: (indentChars (k + 1) ++
              ('"' :: (key.data.flatMap escChar ++
                '"' :: (':' :: (' ' :: (dumpVal (k + 1) v ++
                  (dumpObjRest (k + 1) tl ++
                    '\n' :: (indentChars k ++ '\x7d' :: rest))))))))) := by
          show ('\x7b' :: '\n' :: (indentChars (k + 1) ++ encodeJString key ++
            ':' :: ' ' :: (dumpVal (k + 1) v ++ dumpObjRest (k + 1) tl ++
              '\n' :: (indentChars k ++ ['\x7d'])))) ++ rest = _
          unfold encodeJString
          simp [List.append_assoc]
        rw [hshape, parseVal_cons, if_neg (by decide), if_neg (by decide),
          if_neg (by decide), if_neg (by decide), if_neg (by decide),
          if_pos rfl]
        rw [skipWs_newline, skipWs_indent,
          skipWs_cons_of_not_ws (by decide)]
        rw [parseObjBody_cons_ne (m3 + 1) (by decide)]
        rw [parseMember_cons m3]
        have e0 : parseJStringRest
            ((key.data.flatMap escChar ++
              '"' :: (':' :: (' ' :: (dumpVal (k + 1) v ++
                (dumpObjRest (k + 1) tl ++
                  '\n' :: (indentChars k ++ '\x7d' :: rest)))))).length + 1)
            (key.data.flatMap escChar ++
              '"' :: (':' :: (' ' :: (dumpVal (k + 1) v ++
                (dumpObjRest (k + 1) tl ++
                  '\n' :: (indentChars k ++ '\x7d' :: rest)))))) =
            some (key.data, ':' :: (' ' :: (dumpVal (k + 1) v ++
              (dumpObjRest (k + 1) tl ++
                '\n' :: (indentChars k ++ '\x7d' :: rest))))) := by
          apply parseJStringRest_flatMap
          have := flatMap_escChar_length_ge key.data
          simp only [List.length_append, List.length_cons]
          omega
        have e2 : skipWs (' ' :: (dumpVal (k + 1) v ++
            (dumpObjRest (k + 1) tl ++
              '\n' :: (indentChars k ++ '\x7d' :: rest)))) =
            dumpVal (k + 1) v ++ (dumpObjRest (k + 1) tl ++
              '\n' :: (indentChars k ++ '\x7d' :: rest)) := by
          rw [skipWs_cons_of_ws (by decide), skipWs_dumpVal]
        have e3 := (ih m3 (by omega)).1 v (k + 1)
          (dumpObjRest (k + 1) tl ++ '\n' :: (indentChars k ++ '\x7d' :: rest))
          (by omega) (noDigitHead_dumpObjRest (k + 1) tl _)
        have e4 := (ih (m3 + 1) (by omega)).2.2 tl (k + 1) k rest (by omega)
        simp only [e0, e3, e4, skipWs_cons_of_not_ws (show isJsonWs ':' = false from by decide), e2,
          stringMk_data]
  · intro tl k k2 rest hsz
    obtain ⟨m, rfl⟩ : ∃ m, fuel = m + 1 :=
      ⟨fuel - 1, by have := jlist_fsize_pos tl; omega⟩
    cases tl with
    | jnil =>
      rw [show dumpArrRest k .jnil ++ '\n' :: (indentChars k2 ++ ']' :: rest) =
        '\n' :: (indentChars k2 ++ ']' :: rest) from rfl]
      rw [parseArrRest_succ, skipWs_newline, skipWs_indent,
        skipWs_cons_of_not_ws (by decide)]
      rfl
    | jcons v tl2 =>
      have hfv := jval_fsize_pos v
      have hftl := jlist_fsize_pos tl2
      have hsz2 : 1 + v.fsize + tl2.fsize ≤ m + 1 := by
        simp only [JList.fsize] at hsz
        omega
      have hshape : dumpArrRest k (.jcons v tl2) ++
          '\n' :: (indentChars k2 ++ ']' :: rest) =
          ',' :: ('\n' :: (indentChars k ++ (dumpVal k v ++
            (dumpArrRest k tl2 ++ '\n' :: (indentChars k2 ++ ']' :: rest))))) := by
        show (',' :: '\n' :: (indentChars k ++ dumpVal k v ++
          dumpArrRest k tl2)) ++ '\n' :: (indentChars k2 ++ ']' :: rest) = _
        simp [List.append_assoc]
      rw [hshape, parseArrRest_succ]
      have e1 : skipWs (',' :: ('\n' :: (indentChars k ++ (dumpVal k v ++
          (dumpArrRest k tl2 ++ '\n' :: (indentChars k2 ++ ']' :: rest)))))) =
          ',' :: ('\n' :: (indentChars k ++ (dumpVal k v ++
          (dumpArrRest k tl2 ++ '\n' :: (indentChars k2 ++ ']' :: rest))))) :=
        skipWs_cons_of_not_ws (by decide) _
      have e2 : skipWs ('\n' :: (indentChars k ++ (dumpVal k v ++
          (dumpArrRest k tl2 ++ '\n' :: (indentChars k2 ++ ']' :: rest))))) =
          dumpVal k v ++
            (dumpArrRest k tl2 ++ '\n' :: (indentChars k2 ++ ']' :: rest)) := by
        rw [skipWs_newline, skipWs_indent, skipWs_dumpVal]
      have e3 := (ih m (by omega)).1 v k
        (dumpArrRest k tl2 ++ '\n' :: (indentChars k2 ++ ']' :: rest))
        (by omega) (noDigitHead_dumpArrRest k tl2 _)
      have e4 := (ih m (by omega)).2.1 tl2 k k2 rest (by omega)
      simp only [e1, e2, e3, e4]
  · intro ms k k2 rest hsz
    obtain ⟨m, rfl⟩ : ∃ m, fuel = m + 1 :=
      ⟨fuel - 1, by have := jmembers_fsize_pos ms; omega⟩
    cases ms with
    | mnil =>
      rw [show dumpObjRest k .mnil ++
        '\n' :: (indentChars k2 ++ '\x7d' :: rest) =
        '\n' :: (indentChars k2 ++ '\x7d' :: rest) from rfl]
      rw [parseObjRest_succ, skipWs_newline, skipWs_indent,
        skipWs_cons_of_not_ws (by decide)]
      rfl
    | mcons key v tl =>
      have hfv := jval_fsize_pos v
      have hftl := jmembers_fsize_pos tl
      have hsz2 : 2 + v.fsize + tl.fsize ≤ m + 1 := by
        simp only [JMembers.fsize] at hsz
        omega
      obtain ⟨m3, rfl⟩ : ∃ m3, m = m3 + 1 := ⟨m - 1, by omega⟩
      have hshape : dumpObjRest k (.mcons key v tl) ++
          '\n' :: (indentChars k2 ++ '\x7d' :: rest) =
          ',' :: ('\n' :: (indentChars k ++
            ('"' :: (key.data.flatMap escChar ++
              '"' :: (':' :: (' ' :: (dumpVal k v ++
                (dumpObjRest k tl ++
                  '\n' :: (indentChars k2 ++ '\x7d' :: rest))))))))) := by
        show (',' :: '\n' :: (indentChars k ++ encodeJString key ++
          ':' :: ' ' :: (dumpVal k v ++ dumpObjRest k tl))) ++
            '\n' :: (indentChars k2 ++ '\x7d' :: rest) = _
        unfold encodeJString
        simp [List.append_assoc]
      rw [hshape, parseObjRest_succ]
      have e1 : skipWs (',' :: ('\n' :: (indentChars k ++
          ('"' :: (key.data.flatMap escChar ++
            '"' :: (':' :: (' ' :: (dumpVal k v ++
              (dumpObjRest k tl ++
                '\n' :: (indentChars k2 ++ '\x7d' :: rest)))))))))) =
          ',' :: ('\n' :: (indentChars k ++
          ('"' :: (key.data.flatMap escChar ++
            '"' :: (':' :: (' ' :: (dumpVal k v ++
              (dumpObjRest k tl ++
                '\n' :: (indentChars k2 ++ '\x7d' :: rest))))))))) :=
        skipWs_cons_of_not_ws (by decide) _
      have e2 : skipWs ('\n' :: (indentChars k ++
          ('"' :: (key.data.flatMap escChar ++
            '"' :: (':' :: (' ' :: (dumpVal k v ++
              (dumpObjRest k tl ++
                '\n' :: (indentChars k2 ++ '\x7d' :: rest))))))))) =
          '"' :: (key.data.flatMap escChar ++
            '"' :: (':' :: (' ' :: (dumpVal k v ++
              (dumpObjRest k tl ++
                '\n' :: (indentChars k2 ++ '\x7d' :: rest)))))) := by
        rw [skipWs_newline, skipWs_indent, skipWs_cons_of_not_ws (by decide)]
      have e0 : parseJStringRest
          ((key.data.flatMap escChar ++
            '"' :: (':' :: (' ' :: (dumpVal k v ++
              (dumpObjRest k tl ++
                '\n' :: (indentChars k2 ++ '\x7d' :: rest)))))).length + 1)
          (key.data.flatMap escChar ++
            '"' :: (':' :: (' ' :: (dumpVal k v ++
              (dumpObjRest k tl ++
                '\n' :: (indentChars k2 ++ '\x7d' :: rest)))))) =
          some (key.data, ':' :: (' ' :: (dumpVal k v ++
            (dumpObjRest k tl ++
              '\n' :: (indentChars k2 ++ '\x7d' :: rest))))) := by
        apply parseJStringRest_flatMap
        have := flatMap_escChar_length_ge key.data
        simp only [List.length_append, List.length_cons]
        omega
      have e5 : skipWs (' ' :: (dumpVal k v ++
          (dumpObjRest k tl ++
            '\n' :: (indentChars k2 ++ '\x7d' :: rest)))) =
          dumpVal k v ++ (dumpObjRest k tl ++
            '\n' :: (indentChars k2 ++ '\x7d' :: rest)) := by
        rw [skipWs_cons_of_ws (by decide), skipWs_dumpVal]
      have e3 := (ih m3 (by omega)).1 v k
        (dumpObjRest k tl ++ '\n' :: (indentChars k2 ++ '\x7d' :: rest))
        (by omega) (noDigitHead_dumpObjRest k tl _)
      have e4 := (ih (m3 + 1) (by omega)).2.2 tl k k2 rest (by omega)
      simp only [e1, e2, parseMember_cons, e0,
        skipWs_cons_of_not_ws (show isJsonWs ':' = false from by decide),
        e5, e3, e4, stringMk_data]

mutual

theorem jval_fsize_le_dump : ∀ (k : Nat) (v : Jval),
    v.fsize ≤ (dumpVal k v).length
  | _, .jnull => by simp [Jval.fsize, dumpVal]
  | _, .jbool true => by simp [Jval.fsize, dumpVal]
  | _, .jbool false => by simp [Jval.fsize, dumpVal]
  | _, .jint i => by
    cases i with
    | ofNat n =>
      obtain ⟨d, ds, hshape, _, _⟩ := natChars_shape n
      simp [Jval.fsize, dumpVal, intChars, hshape]
    | negSucc n => simp [Jval.fsize, dumpVal, intChars]
  | _, .jstr s => by simp [Jval.fsize, dumpVal, encodeJString]
  | _, .jarr .jnil => by simp [Jval.fsize, JList.fsize, dumpVal]
  | k, .jarr (.jcons v tl) => by
    have h1 := jval_fsize_le_dump (k + 1) v
    have h2 := jlist_fsize_le_dump (k + 1) tl
    simp only [Jval.fsize, JList.fsize, dumpVal, List.length_cons,
      List.length_append]
    omega
  | _, .jobj .mnil => by simp [Jval.fsize, JMembers.fsize, dumpVal]
  | k, .jobj (.mcons key v tl) => by
    have h1 := jval_fsize_le_dump (k + 1) v
    have h2 := jmembers_fsize_le_dump (k + 1) tl
    simp only [Jval.fsize, JMembers.fsize, dumpVal, List.length_cons,
      List.length_append]
    omega

theorem jlist_fsize_le_dump : ∀ (k : Nat) (tl : JList),
    tl.fsize ≤ (dumpArrRest k tl).length + 1
  | _, .jnil => by simp [JList.fsize, dumpArrRest]
  | k, .jcons v tl => by
    have h1 := jval_fsize_le_dump k v
    have h2 := jlist_fsize_le_dump k tl
    simp only [JList.fsize, dumpArrRest, List.length_cons, List.length_append]
    omega

theorem jmembers_fsize_le_dump : ∀ (k : Nat) (ms : JMembers),
    ms.fsize ≤ (dumpObjRest k ms).length + 1
  | _, .mnil => by simp [JMembers.fsize, dumpObjRest]
  | k, .mcons key v tl => by
    have h1 := jval_fsize_le_dump k v
    have h2 := jmembers_fsize_le_dump k tl
    simp only [JMembers.fsize, dumpObjRest, List.length_cons,
      List.length_append]
    omega

end

/-- The serializer/parser round trip: parsing a dumped JSON value recovers
exactly that value.  This is the heart of the persist/load round-trip
property. -/
theorem jsonLoads_jsonDumps (v : Jval) : jsonLoads (jsonDumps v) = some v := by
  unfold jsonLoads jsonDumps
  obtain ⟨c, cs, hshape, hws, _⟩ := dumpVal_head 0 v
  rw [show (String.mk (dumpVal 0 v)).data = dumpVal 0 v from rfl]
  rw [hshape, skipWs_cons_of_not_ws hws, ← hshape]
  have hfuel : v.fsize ≤ (dumpVal 0 v).length + 1 := by
    have := jval_fsize_le_dump 0 v
    omega
  have hp := (parse_dump_all ((dumpVal 0 v).length + 1)).1 v 0 [] hfuel trivial
  rw [List.append_nil] at hp
  rw [hp]
  rfl

/-- A normalized record: an ordered mapping of field names to JSON values,
as the connectors build with Python dict literals. -/
abbrev Record := List (String × Jval)

/-- An ordered sequence of records of one source type. -/
abbrev Collection := List Record

def recordToMembers : Record → JMembers
  | [] => .mnil
  | (key, v) :: tl => .mcons key v (recordToMembers tl)

def membersToRecord : JMembers → Record
  | .mnil => []
  | .mcons key v tl => (key, v) :: membersToRecord tl

def collectionToJList : Collection → JList
  | [] => .jnil
  | r :: tl => .jcons (.jobj (recordToMembers r)) (collectionToJList tl)

/-- The JSON payload serialized by save_data_to_storage: an array of flat
objects. -/
def collectionToJson (c : Collection) : Jval := .jarr (collectionToJList c)

/-- A JSON array body as a Lean list of values. -/
def jlistToList : JList → List Jval
  | .jnil => []
  | .jcons v tl => v :: jlistToList tl

/-- The DataFrame shapes pd.DataFrame builds from a parsed JSON payload:
records (from an array of objects — the shape this program writes), a
positional frame (from an array whose first element is not an object:
pandas hands the list to numpy and builds positional columns, one row per
element; the model keeps the element list, which carries the row count),
or named columns (from an object whose fields hold arrays).  The program
itself only tests df.empty and reads record-shaped frames; the inner
structure of the other shapes matters to no theorem. -/
inductive PdFrame : Type where
  | recs : Collection → PdFrame
  | cells : List Jval → PdFrame
  | cols : List (String × List Jval) → PdFrame
  deriving DecidableEq

/-- df.empty: no rows (for named columns, every column empty). -/
def PdFrame.isEmpty : PdFrame → Bool
  | .recs rs => rs.isEmpty
  | .cells vs => vs.isEmpty
  | .cols fs => fs.all (fun p => p.2.isEmpty)

/-- pandas' list-of-Mappings constructor path: reads .keys() of every
element, yielding the records in order when all elements are objects and
raising (none) on a non-object element. -/
def pdRows : JList → Option Collection
  | .jnil => some []
  | .jcons (.jobj ms) tl =>
    match pdRows tl with
    | some rs => some (membersToRecord ms :: rs)
    | none => none
  | .jcons _ _ => none

/-- Column extraction for a top-level JSON object: one named column per
array-valued field; a non-array field makes this path inapplicable. -/
def colsOfMembers : JMembers → Option (List (String × List Jval))
  | .mnil => some []
  | .mcons k (.jarr l) tl =>
    match colsOfMembers tl with
    | some fs => some ((k, jlistToList l) :: fs)
    | none => none
  | .mcons _ _ _ => none

/-- pd.DataFrame(dict) requires all column lengths to agree. -/
def sameLengths : List (String × List Jval) → Bool
  | [] => true
  | (_, v) :: tl => tl.all (fun p => p.2.length == v.length)

/-- Model of pd.DataFrame over a parsed JSON payload, as called by
load_data_from_storage inside its try (a raising constructor is caught by
the source and converted to an empty frame, so none here means "raises").
Faithful cases: an empty array or None gives an empty frame; an array whose
first element is an object takes the list-of-Mappings path (pdRows); an
array whose first element is not an object becomes a positional frame with
one row per element; an empty object gives an empty frame; an object all of
whose fields hold arrays gives named columns when the lengths agree and
raises (ValueError) otherwise; an object of only scalar fields raises
pandas' all-scalar ValueError; a top-level string, number or boolean raises
"DataFrame constructor not properly called".  Outside the modelled region —
an object mixing array and scalar fields (pandas broadcasts the scalars) or
holding object-valued fields (pandas builds index-aligned columns) — the
model returns none; no theorem below touches such payloads. -/
def pdFrame : Jval → Option PdFrame
  | .jarr .jnil => some (.recs [])
  | .jarr (.jcons (.jobj ms) tl) =>
    match pdRows (.jcons (.jobj ms) tl) with
    | some rs => some (.recs rs)
    | none => none
  | .jarr (.jcons v tl) => some (.cells (v :: jlistToList tl))
  | .jobj .mnil => some (.cols [])
  | .jobj ms =>
    match colsOfMembers ms with
    | some fs => if sameLengths fs then some (.cols fs) else none
    | none => none
  | .jnull => some (.recs [])
  | _ => none

/-- The empty DataFrame pd.DataFrame() returned on every failure path of
load_data_from_storage. -/
def emptyFrame : PdFrame := .recs []

theorem pdFrame_objHead (ms : JMembers) (tl : JList) :
    pdFrame (.jarr (.jcons (.jobj ms) tl)) =
      match pdRows (.jcons (.jobj ms) tl) with
      | some rs => some (.recs rs)
      | none => none := rfl

theorem membersToRecord_recordToMembers (r : Record) :
    membersToRecord (recordToMembers r) = r := by
  induction r with
  | nil => rfl
  | cons kv tl ih =>
    cases kv with
    | mk key v => simp [recordToMembers, membersToRecord, ih]

theorem pdRows_collectionToJList (c : Collection) :
    pdRows (collectionToJList c) = some c := by
  induction c with
  | nil => rfl
  | cons r tl ih =>
    simp [collectionToJList, pdRows, ih, membersToRecord_recordToMembers]

theorem pdFrame_collectionToJson (c : Collection) :
    pdFrame (collectionToJson c) = some (.recs c) := by
  cases c with
  | nil => rfl
  | cons r tl =>
    show pdFrame (.jarr (.jcons (.jobj (recordToMembers r))
      (collectionToJList tl))) = some (.recs (r :: tl))
    rw [pdFrame_objHead]
    rw [show pdRows (.jcons (.jobj (recordToMembers r))
      (collectionToJList tl)) = some (r :: tl) from
      pdRows_collectionToJList (r :: tl)]

/-- Model of Python str.replace(pat, rep) (all non-overlapping occurrences,
left to right), with fuel for structural recursion; the program only calls it
with the non-empty pattern "s3://". -/
def pyReplaceAll : Nat → List Char → List Char → List Char → List Char
  | 0, _, _, s => s
  | fuel + 1, pat, rep, s =>
    if pat.isPrefixOf s then rep ++ pyReplaceAll fuel pat rep (s.drop pat.length)
    else
      match s with
      | [] => []
      | c :: cs => c :: pyReplaceAll fuel pat rep cs

def pyReplace (s pat rep : String) : String :=
  String.mk (pyReplaceAll (s.data.length + 1) pat.data rep.data s.data)

/-- Model of Python str.split("/"). -/
def splitSlash : List Char → List (List Char)
  | [] => [[]]
  | c :: cs =>
    if c = '/' then [] :: splitSlash cs
    else
      match splitSlash cs with
      | g :: gs => (c :: g) :: gs
      | [] => [[c]]

/-- Model of Python "/".join. -/
def joinSlashData : List (List Char) → List Char
  | [] => []
  | [x] => x
  | x :: xs => x ++ '/' :: joinSlashData xs

/-- Outcome of one local write attempt (open('w', encoding='utf-8') followed
by json.dump): the write completes; open() itself fails, leaving no file;
or json.dump raises after k characters have reached the file.  open('w')
truncates the target immediately and json.dump streams the serialization in
document order, so a mid-write failure leaves a file holding a prefix of
the payload — the local write is NOT atomic. -/
inductive LocalWrite : Type where
  | success : LocalWrite
  | openFail : LocalWrite
  | failAfter : Nat → LocalWrite
  deriving DecidableEq

/-- The state of the two storage tiers as seen by save_data_to_storage and
load_data_from_storage: whether the S3 client and bucket name are configured,
whether remote put/get calls succeed (a failing call raises ClientError in
the source and is modelled as leaving the store unchanged — a remote put is
atomic at the service level), the object store contents keyed by bucket and
key, the outcome the next local write attempt runs into, and the local file
system contents keyed by path. -/
structure StorageState where
  s3conf : Bool
  bucket : String
  s3PutOk : Bool
  s3GetOk : Bool
  s3store : List ((String × String) × String)
  localWrite : LocalWrite
  localStore : List (String × String)

/-- The filename built by save_data_to_storage:
f"{source_type}_{safe_query_details}_{timestamp}.json". -/
def baseFilename (source_type query_details ts : String) : String :=
  source_type ++ "_" ++ sanitize_for_filename query_details ++ "_" ++ ts ++
    ".json"

/-- The S3 object key: f"{source_type}_data/{base_filename}". -/
def s3Key (source_type query_details ts : String) : String :=
  source_type ++ "_data/" ++ baseFilename source_type query_details ts

/-- The serialized payload json.dumps(data_to_save, ensure_ascii=False,
indent=4). -/
def payloadOf (data : Collection) : String :=
  jsonDumps (collectionToJson data)

/-- The local-tier write of save_data_to_storage (src/agent.py lines
148-157): open data/<filename> for writing (truncating), stream the payload
into it and return that path; on an open failure return None with no file
created; on a json.dump failure after k characters return None, the partial
file left behind. -/
def saveLocal (st : StorageState) (base_filename payload : String) :
    StorageState × Option String :=
  match st.localWrite with
  | .success =>
    ({ st with localStore :=
        ("data/" ++ base_filename, payload) :: st.localStore },
      some ("data/" ++ base_filename))
  | .openFail => (st, none)
  | .failAfter k =>
    ({ st with localStore :=
        ("data/" ++ base_filename, pySliceTo k payload) :: st.localStore },
      none)

/-- Embedding of save_data_to_storage (src/agent.py lines 123-157).  The
timestamp string ts stands for datetime.now().strftime('%Y%m%d%H%M%S'). -/
def save_data_to_storage (st : StorageState) (data : Collection)
    (source_type query_details ts : String) : StorageState × Option String :=
  if st.s3conf then
    if st.s3PutOk then
      ({ st with s3store :=
          ((st.bucket, s3Key source_type query_details ts),
            payloadOf data) :: st.s3store },
        some ("s3://" ++ st.bucket ++ "/" ++ s3Key source_type query_details ts))
    else saveLocal st (baseFilename source_type query_details ts) (payloadOf data)
  else saveLocal st (baseFilename source_type query_details ts) (payloadOf data)

/-- Shared tail of load_data_from_storage: json.loads then pd.DataFrame,
with a parse error or a raising constructor converted to an empty
DataFrame by the source's except clauses. -/
def parsePayload (content : String) : PdFrame :=
  match jsonLoads content with
  | none => emptyFrame
  | some j =>
    match pdFrame j with
    | none => emptyFrame
    | some f => f

/-- The S3 branch of load_data_from_storage once the locator has been split
on "/": bucket is path_parts[0], key is "/".join(path_parts[1:]); empty
bucket or key is invalid; an unreachable backend or missing object yields an
empty DataFrame. -/
def loadS3Parts (st : StorageState) (path_parts : List (List Char)) :
    PdFrame :=
  if String.mk (path_parts.headD []) = "" ∨
      String.mk (joinSlashData path_parts.tail) = "" then emptyFrame
  else if st.s3GetOk then
    match List.lookup (String.mk (path_parts.headD []),
        String.mk (joinSlashData path_parts.tail)) st.s3store with
    | none => emptyFrame
    | some content => parsePayload content
  else emptyFrame

/-- Embedding of load_data_from_storage (src/agent.py lines 160-200):
dispatch on the "s3://" scheme; on the remote branch parse bucket and key
from the locator (storage_path.replace("s3://", "").split("/")) and read the
exact object; on the local branch read the file at the path when it exists;
every failure (unconfigured client, unreachable backend, missing object or
file, unparsable payload, raising DataFrame constructor) yields an empty
DataFrame. -/
def load_data_from_storage (st : StorageState) (storage_path : String) :
    PdFrame :=
  if pyStartswith storage_path "s3://" then
    if st.s3conf then
      loadS3Parts st (splitSlash (pyReplace storage_path "s3://" "").data)
    else emptyFrame
  else
    match List.lookup storage_path st.localStore with
    | none => emptyFrame
    | some content => parsePayload content

theorem keyChar_not_colon_slash {c : Char} (h : keyChar c = true) :
    ¬(c = ':') ∧ ¬(c = '/') := by
  constructor <;> intro he <;> subst he <;> revert h <;> decide

theorem sanitize_no_colon (q : String) :
    ':' ∉ (sanitize_for_filename q).data :=
  fun hc => (keyChar_not_colon_slash (sanitize_chars q _ hc)).1 rfl

theorem no_colon_append {a b : String} (ha : ':' ∉ a.data)
    (hb : ':' ∉ b.data) : ':' ∉ (a ++ b).data := by
  rw [String.data_append]
  intro h
  rcases List.mem_append.mp h with h | h
  exacts [ha h, hb h]

theorem isPrefixOf_s3_mem {s : List Char}
    (h : ("s3://".data).isPrefixOf s = true) : ':' ∈ s := by
  obtain ⟨t, rfl⟩ := List.isPrefixOf_iff_prefix.mp h
  exact List.mem_append.mpr (Or.inl (by decide))

theorem pyReplaceAll_succ (n : Nat) (pat rep s : List Char) :
    pyReplaceAll (n + 1) pat rep s =
      if pat.isPrefixOf s then
        rep ++ pyReplaceAll n pat rep (s.drop pat.length)
      else
        match s with
        | [] => []
        | c :: cs => c :: pyReplaceAll n pat rep cs := rfl

theorem pyReplaceAll_no_colon :
    ∀ (fuel : Nat) (s : List Char), ':' ∉ s →
      pyReplaceAll fuel "s3://".data "".data s = s := by
  intro fuel
  induction fuel with
  | zero => intro s _; rfl
  | succ fuel ih =>
    intro s hs
    cases s with
    | nil => rfl
    | cons c cs =>
      rw [pyReplaceAll_succ, if_neg (fun hp => hs (isPrefixOf_s3_mem hp))]
      show c :: pyReplaceAll fuel "s3://".data "".data cs = c :: cs
      rw [ih cs (fun h => hs (List.mem_cons_of_mem c h))]

theorem pyReplace_s3_data {u : String} {t : List Char}
    (hu : u.data = "s3://".data ++ t) (ht : ':' ∉ t) :
    (pyReplace u "s3://" "").data = t := by
  unfold pyReplace
  rw [show (String.mk (pyReplaceAll (u.data.length + 1) "s3://".data "".data
    u.data)).data =
    pyReplaceAll (u.data.length + 1) "s3://".data "".data u.data from rfl]
  rw [hu, pyReplaceAll_succ, if_pos (isPrefixOf_append _ _)]
  rw [show List.drop ("s3://".data).length ("s3://".data ++ t) = t from
    List.drop_left _ _]
  rw [pyReplaceAll_no_colon _ t ht]
  rfl

theorem splitSlash_cons (c : Char) (cs : List Char) :
    splitSlash (c :: cs) =
      if c = '/' then [] :: splitSlash cs
      else
        match splitSlash cs with
        | g :: gs => (c :: g) :: gs
        | [] => [[c]] := rfl

theorem splitSlash_ne_nil (s : List Char) : splitSlash s ≠ [] := by
  cases s with
  | nil => simp [splitSlash]
  | cons c cs =>
    rw [splitSlash_cons]
    by_cases hc : c = '/'
    · rw [if_pos hc]; simp
    · rw [if_neg hc]
      cases h : splitSlash cs with
      | nil => simp
      | cons g gs => simp

theorem splitSlash_append {b : List Char} (hb : '/' ∉ b) (t : List Char) :
    splitSlash (b ++ '/' :: t) = b :: splitSlash t := by
  induction b with
  | nil => rw [List.nil_append, splitSlash_cons, if_pos rfl]
  | cons c cs ih =>
    have hc : ¬(c = '/') := fun h => hb (h ▸ List.mem_cons_self c cs)
    rw [List.cons_append, splitSlash_cons, if_neg hc,
      ih (fun h => hb (List.mem_cons_of_mem c h))]

theorem joinSlashData_splitSlash (s : List Char) :
    joinSlashData (splitSlash s) = s := by
  induction s with
  | nil => rfl
  | cons c cs ih =>
    by_cases hc : c = '/'
    · subst hc
      rw [splitSlash_cons, if_pos rfl]
      cases h : splitSlash cs with
      | nil => exact absurd h (splitSlash_ne_nil cs)
      | cons g gs =>
        rw [h] at ih
        show [] ++ '/' :: joinSlashData (g :: gs) = '/' :: cs
        rw [List.nil_append, ih]
    · rw [splitSlash_cons, if_neg hc]
      cases h : splitSlash cs with
      | nil => exact absurd h (splitSlash_ne_nil cs)
      | cons g gs =>
        rw [h] at ih
        cases gs with
        | nil =>
          show c :: g = c :: cs
          have hg : g = cs := ih
          rw [hg]
        | cons g2 gs2 =>
          show (c :: g) ++ '/' :: joinSlashData (g2 :: gs2) = c :: cs
          have hg : g ++ '/' :: joinSlashData (g2 :: gs2) = cs := ih
          rw [List.cons_append, hg]

theorem parsePayload_dumps (c : Collection) :
    parsePayload (payloadOf c) = .recs c := by
  unfold parsePayload payloadOf
  simp only [jsonLoads_jsonDumps, pdFrame_collectionToJson]

theorem string_eq_empty_of_data {s : String} (h : s.data = []) : s = "" := by
  cases s with
  | mk d =>
    show String.mk d = ""
    rw [show d = ([] : List Char) from h]

theorem string_append_ne_empty (a b : String) (hb : b.data ≠ []) :
    ¬(a ++ b = "") := by
  intro h
  have hd : (a ++ b).data = [] := by rw [h]
  rw [String.data_append] at hd
  exact hb (List.append_eq_nil.mp hd).2

theorem baseFilename_no_colon {source_type query_details ts : String}
    (hsrc : ':' ∉ source_type.data) (hts : ':' ∉ ts.data) :
    ':' ∉ (baseFilename source_type query_details ts).data := by
  unfold baseFilename
  intro h
  simp only [String.data_append, List.mem_append] at h
  rcases h with ((((h | h) | h) | h) | h) | h
  · exact hsrc h
  · revert h; decide
  · exact sanitize_no_colon query_details h
  · revert h; decide
  · exact hts h
  · revert h; decide

theorem s3Key_no_colon {source_type query_details ts : String}
    (hsrc : ':' ∉ source_type.data) (hts : ':' ∉ ts.data) :
    ':' ∉ (s3Key source_type query_details ts).data := by
  unfold s3Key
  intro h
  simp only [String.data_append, List.mem_append] at h
  rcases h with (h | h) | h
  · exact hsrc h
  · revert h; decide
  · exact baseFilename_no_colon hsrc hts h

theorem baseFilename_ne_empty (source_type query_details ts : String) :
    ¬(baseFilename source_type query_details ts = "") := by
  unfold baseFilename
  exact string_append_ne_empty
    (source_type ++ "_" ++ sanitize_for_filename query_details ++ "_" ++ ts)
    ".json" (by decide)

theorem s3Key_ne_empty (source_type query_details ts : String) :
    ¬(s3Key source_type query_details ts = "") := by
  unfold s3Key
  refine string_append_ne_empty (source_type ++ "_data/")
    (baseFilename source_type query_details ts) (fun h => ?_)
  exact baseFilename_ne_empty source_type query_details ts
    (string_eq_empty_of_data h)

/-- Loading an s3://bucket/key locator with a well-formed bucket name reads
exactly the object stored under (bucket, key). -/
theorem load_s3_uri (st : StorageState) (key : String)
    (hb1 : ':' ∉ st.bucket.data) (hb2 : '/' ∉ st.bucket.data)
    (hb3 : ¬(st.bucket = "")) (hk1 : ':' ∉ key.data) (hk2 : ¬(key = ""))
    (hconf : st.s3conf = true) (hget : st.s3GetOk = true) :
    load_data_from_storage st ("s3://" ++ st.bucket ++ "/" ++ key) =
      (match List.lookup (st.bucket, key) st.s3store with
       | none => emptyFrame
       | some content => parsePayload content) := by
  have hdata : ("s3://" ++ st.bucket ++ "/" ++ key).data =
      "s3://".data ++ (st.bucket.data ++ '/' :: key.data) := by
    simp [String.data_append, List.append_assoc]
  have hstart : pyStartswith ("s3://" ++ st.bucket ++ "/" ++ key) "s3://" =
      true := by
    unfold pyStartswith
    rw [hdata]
    exact isPrefixOf_append _ _
  have hcolon : ':' ∉ st.bucket.data ++ '/' :: key.data := by
    intro h
    rcases List.mem_append.mp h with h | h
    · exact hb1 h
    · rcases List.mem_cons.mp h with h | h
      · exact absurd h (by decide)
      · exact hk1 h
  unfold load_data_from_storage
  rw [if_pos hstart, if_pos hconf]
  rw [pyReplace_s3_data hdata hcolon]
  rw [splitSlash_append hb2 key.data]
  unfold loadS3Parts
  rw [show (st.bucket.data :: splitSlash key.data).headD [] =
    st.bucket.data from rfl]
  rw [show (st.bucket.data :: splitSlash key.data).tail =
    splitSlash key.data from rfl]
  rw [joinSlashData_splitSlash, stringMk_data, stringMk_data]
  rw [if_neg (by push_neg; exact ⟨hb3, hk2⟩), if_pos hget]

theorem pyStartswith_local (base_filename : String) :
    pyStartswith ("data/" ++ base_filename) "s3://" = false := by
  unfold pyStartswith
  rw [String.data_append]
  rfl

theorem load_after_saveLocal (st : StorageState) (data : Collection)
    (bf loc : String)
    (hsave : (saveLocal st bf (payloadOf data)).2 = some loc) :
    load_data_from_storage (saveLocal st bf (payloadOf data)).1 loc =
      .recs data := by
  unfold saveLocal at hsave ⊢
  cases hw : st.localWrite with
  | success =>
    rw [hw] at hsave
    have h2 : some ("data/" ++ bf) = some loc := hsave
    obtain rfl : loc = "data/" ++ bf := (Option.some.inj h2).symm
    show load_data_from_storage
      {st with localStore := ("data/" ++ bf, payloadOf data) :: st.localStore}
      ("data/" ++ bf) = .recs data
    unfold load_data_from_storage
    rw [if_neg (by rw [pyStartswith_local]; exact Bool.false_ne_true)]
    show (match List.lookup ("data/" ++ bf)
        (("data/" ++ bf, payloadOf data) :: st.localStore) with
      | none => emptyFrame
      | some content => parsePayload content) = .recs data
    simp [List.lookup, parsePayload_dumps]
  | openFail =>
    rw [hw] at hsave
    have h2 : (none : Option String) = some loc := hsave
    exact Option.noConfusion h2
  | failAfter k =>
    rw [hw] at hsave
    have h2 : (none : Option String) = some loc := hsave
    exact Option.noConfusion h2

/-- C1 (confirmed): whenever save_data_to_storage returns a locator, loading
that locator from the post-save state yields exactly the saved collection as
a records frame: same records, same field values, same order.  The
hypotheses record the
standing environment facts: a well-formed bucket name (S3 bucket names
contain no colon or slash and are non-empty), a scheme-free source type and
timestamp (the program passes "github"/"reddit" and a digit timestamp), a
backend reachable at load time, and the data-model invariant of §3 (records
of one collection carry the same duplicate-free field set), under which the
pd.DataFrame model is faithful. -/
theorem c1_round_trip (st : StorageState) (data : Collection)
    (source_type query_details ts loc : String)
    (hkeys : ∀ r ∈ data, (r.map Prod.fst).Nodup)
    (hshape : ∀ r1 ∈ data, ∀ r2 ∈ data, r1.map Prod.fst = r2.map Prod.fst)
    (hb1 : ':' ∉ st.bucket.data) (hb2 : '/' ∉ st.bucket.data)
    (hb3 : ¬(st.bucket = ""))
    (hsrc : ':' ∉ source_type.data) (hts : ':' ∉ ts.data)
    (hget : st.s3GetOk = true)
    (hsave : (save_data_to_storage st data source_type query_details ts).2 =
      some loc) :
    load_data_from_storage
      (save_data_to_storage st data source_type query_details ts).1 loc =
      .recs data := by
  unfold save_data_to_storage at hsave ⊢
  by_cases hconf : st.s3conf = true
  · by_cases hput : st.s3PutOk = true
    · rw [if_pos hconf, if_pos hput] at hsave ⊢
      have h2 : some ("s3://" ++ st.bucket ++ "/" ++
          s3Key source_type query_details ts) = some loc := hsave
      obtain rfl : loc = "s3://" ++ st.bucket ++ "/" ++
          s3Key source_type query_details ts := (Option.some.inj h2).symm
      show load_data_from_storage
        {st with s3store :=
          ((st.bucket, s3Key source_type query_details ts),
            payloadOf data) :: st.s3store}
        ("s3://" ++ st.bucket ++ "/" ++ s3Key source_type query_details ts) =
        .recs data
      have hload : load_data_from_storage
          {st with s3store :=
            ((st.bucket, s3Key source_type query_details ts),
              payloadOf data) :: st.s3store}
          ("s3://" ++ st.bucket ++ "/" ++
            s3Key source_type query_details ts) =
          (match List.lookup (st.bucket, s3Key source_type query_details ts)
              (((st.bucket, s3Key source_type query_details ts),
                payloadOf data) :: st.s3store) with
           | none => emptyFrame
           | some content => parsePayload content) :=
        load_s3_uri _ (s3Key source_type query_details ts) hb1 hb2 hb3
          (s3Key_no_colon hsrc hts)
          (s3Key_ne_empty source_type query_details ts) hconf hget
      rw [hload]
      simp [List.lookup, parsePayload_dumps]
    · rw [if_pos hconf, if_neg hput] at hsave ⊢
      exact load_after_saveLocal st data _ loc hsave
  · rw [if_neg hconf] at hsave ⊢
    exact load_after_saveLocal st data _ loc hsave

/-- Concrete state for the C1 witness: configured, healthy remote backend. -/
def c1State : StorageState :=
  { s3conf := true, bucket := "mybucket", s3PutOk := true, s3GetOk := true,
    s3store := [], localWrite := .success, localStore := [] }

/-- Concrete two-record repository collection for the C1 witness. -/
def c1Data : Collection :=
  [[("name", .jstr "repoA"), ("stars", .jint 5)],
   [("name", .jstr "repoB"), ("stars", .jint 9)]]

/-- C1 witness: the round-trip theorem applied at a concrete collection,
source type "github", query "LLM apps!" and a concrete timestamp, with every
hypothesis discharged by computation. -/
theorem c1_round_trip_witness :
    load_data_from_storage
      (save_data_to_storage c1State c1Data "github" "LLM apps!"
        "20240101120000").1
      "s3://mybucket/github_data/github_llm_apps_20240101120000.json" =
      .recs c1Data :=
  c1_round_trip c1State c1Data "github" "LLM apps!" "20240101120000"
    "s3://mybucket/github_data/github_llm_apps_20240101120000.json"
    (by decide) (by decide) (by decide) (by decide) (by decide) (by decide)
    (by decide) (by decide) (by decide)

/-- C2 (amended): with a configured remote backend whose write fails, the
outcome is decided by how the local write attempt ends.  When it completes,
persist writes the same JSON payload under data/{filename}, returns that
local locator, and the file is readable there (loading it yields the
collection).  When open() itself fails, persist returns None and no file is
created.  But when json.dump raises midway — the third leg — persist
returns None (Failure) and a PARTIAL file holding a strict prefix of the
payload remains at data/{filename}: the original claim's "leaves no partial
or corrupt file behind" does not hold of the code, whose open('w') truncates
immediately and writes incrementally. -/
theorem c2_fallback_amended (st : StorageState) (data : Collection)
    (source_type query_details ts : String)
    (hconf : st.s3conf = true) (hput : st.s3PutOk = false) :
    (st.localWrite = .success →
      (save_data_to_storage st data source_type query_details ts).2 =
        some ("data/" ++ baseFilename source_type query_details ts) ∧
      List.lookup ("data/" ++ baseFilename source_type query_details ts)
        ((save_data_to_storage st data source_type query_details
          ts).1).localStore = some (payloadOf data) ∧
      load_data_from_storage
        (save_data_to_storage st data source_type query_details ts).1
        ("data/" ++ baseFilename source_type query_details ts) =
        .recs data) ∧
    (st.localWrite = .openFail →
      (save_data_to_storage st data source_type query_details ts).2 = none ∧
      (save_data_to_storage st data source_type query_details ts).1 = st) ∧
    (∀ k : Nat, st.localWrite = .failAfter k →
      (save_data_to_storage st data source_type query_details ts).2 = none ∧
      List.lookup ("data/" ++ baseFilename source_type query_details ts)
        ((save_data_to_storage st data source_type query_details
          ts).1).localStore = some (pySliceTo k (payloadOf data))) := by
  have hsave2 : save_data_to_storage st data source_type query_details ts =
      saveLocal st (baseFilename source_type query_details ts)
        (payloadOf data) := by
    unfold save_data_to_storage
    rw [if_pos hconf, if_neg (by simp [hput])]
  refine ⟨?_, ?_, ?_⟩
  · intro hl
    have hsl : (saveLocal st (baseFilename source_type query_details ts)
        (payloadOf data)).2 =
        some ("data/" ++ baseFilename source_type query_details ts) := by
      unfold saveLocal
      rw [hl]
    rw [hsave2]
    refine ⟨hsl, ?_, load_after_saveLocal st data _ _ hsl⟩
    unfold saveLocal
    rw [hl]
    simp [List.lookup]
  · intro hl
    rw [hsave2]
    unfold saveLocal
    rw [hl]
    exact ⟨rfl, rfl⟩
  · intro k hl
    rw [hsave2]
    unfold saveLocal
    rw [hl]
    refine ⟨rfl, ?_⟩
    simp [List.lookup]

/-- Concrete state for the C2 witness, fallback leg: remote configured but
failing writes, healthy local disk. -/
def c2StateA : StorageState :=
  { s3conf := true, bucket := "mybucket", s3PutOk := false, s3GetOk := true,
    s3store := [], localWrite := .success, localStore := [] }

/-- Concrete state for the C2 witness, double-failure leg: remote configured
but failing, the local open() failing too. -/
def c2StateB : StorageState :=
  { s3conf := true, bucket := "mybucket", s3PutOk := false, s3GetOk := true,
    s3store := [], localWrite := .openFail, localStore := [] }

/-- Concrete state for the C2 counterexample: remote configured but failing,
and the local json.dump raising after 5 characters. -/
def c2StateC : StorageState :=
  { s3conf := true, bucket := "mybucket", s3PutOk := false, s3GetOk := true,
    s3store := [], localWrite := .failAfter 5, localStore := [] }

/-- C2 witness: the amended fallback theorem applied at concrete states for
the local-success and the open-failure legs, all hypotheses computed. -/
theorem c2_fallback_amended_witness :
    ((save_data_to_storage c2StateA c1Data "github" "tooling"
        "20240101120000").2 =
      some ("data/" ++ baseFilename "github" "tooling" "20240101120000") ∧
      List.lookup ("data/" ++ baseFilename "github" "tooling" "20240101120000")
        ((save_data_to_storage c2StateA c1Data "github" "tooling"
          "20240101120000").1).localStore = some (payloadOf c1Data) ∧
      load_data_from_storage
        (save_data_to_storage c2StateA c1Data "github" "tooling"
          "20240101120000").1
        ("data/" ++ baseFilename "github" "tooling" "20240101120000") =
        .recs c1Data) ∧
    ((save_data_to_storage c2StateB c1Data "github" "tooling"
        "20240101120000").2 = none ∧
      (save_data_to_storage c2StateB c1Data "github" "tooling"
        "20240101120000").1 = c2StateB) :=
  ⟨(c2_fallback_amended c2StateA c1Data "github" "tooling" "20240101120000"
      (by decide) (by decide)).1 (by decide),
   (c2_fallback_amended c2StateB c1Data "github" "tooling" "20240101120000"
      (by decide) (by decide)).2.1 (by decide)⟩

/-- C2 counterexample: a mid-write local failure (after the remote tier
already failed) makes persist return Failure, yet a non-empty partial file —
the first 5 characters of the payload, a strict prefix — remains readable at
the local path, refuting the claim that a double failure "leaves no partial
or corrupt file behind". -/
theorem c2_counterexample :
    (save_data_to_storage c2StateC c1Data "github" "tooling"
      "20240101120000").2 = none ∧
    List.lookup ("data/" ++ baseFilename "github" "tooling" "20240101120000")
      ((save_data_to_storage c2StateC c1Data "github" "tooling"
        "20240101120000").1).localStore =
      some (pySliceTo 5 (payloadOf c1Data)) ∧
    ¬(pySliceTo 5 (payloadOf c1Data) = payloadOf c1Data) ∧
    ¬(pySliceTo 5 (payloadOf c1Data) = "") := by
  refine ⟨by decide, by decide, by decide, by decide⟩

/-- C3 (amended): load_data_from_storage is a total function that dispatches
only on the locator scheme, never raises, and never falls back between
tiers.  It returns the empty frame when the remote backend is unconfigured
or unreachable, when the named object (in an arbitrary store) or local file
is missing, when the stored payload is not valid JSON, or when the pandas
constructor rejects the parsed payload; a remote object that is present is
read exactly and parsed like local content.  The original claim's stronger
promise — an empty collection whenever the payload is not the expected
tabular (array-of-records) shape — does NOT hold: a valid-JSON payload the
constructor accepts, such as an array of scalars, loads as a non-empty
frame (see the counterexample). -/
theorem c3_load_amended (st : StorageState) (p : String) :
    (pyStartswith p "s3://" = true → st.s3conf = false →
      load_data_from_storage st p = emptyFrame) ∧
    (pyStartswith p "s3://" = true → st.s3GetOk = false →
      load_data_from_storage st p = emptyFrame) ∧
    (∀ key : String, ':' ∉ st.bucket.data → '/' ∉ st.bucket.data →
      ¬(st.bucket = "") → ':' ∉ key.data → ¬(key = "") →
      st.s3conf = true → st.s3GetOk = true →
      List.lookup (st.bucket, key) st.s3store = none →
      load_data_from_storage st ("s3://" ++ st.bucket ++ "/" ++ key) =
        emptyFrame) ∧
    (∀ key content : String, ':' ∉ st.bucket.data → '/' ∉ st.bucket.data →
      ¬(st.bucket = "") → ':' ∉ key.data → ¬(key = "") →
      st.s3conf = true → st.s3GetOk = true →
      List.lookup (st.bucket, key) st.s3store = some content →
      load_data_from_storage st ("s3://" ++ st.bucket ++ "/" ++ key) =
        parsePayload content) ∧
    (pyStartswith p "s3://" = false → List.lookup p st.localStore = none →
      load_data_from_storage st p = emptyFrame) ∧
    (∀ content, pyStartswith p "s3://" = false →
      List.lookup p st.localStore = some content → jsonLoads content = none →
      load_data_from_storage st p = emptyFrame) ∧
    (∀ content j, pyStartswith p "s3://" = false →
      List.lookup p st.localStore = some content →
      jsonLoads content = some j → pdFrame j = none →
      load_data_from_storage st p = emptyFrame) ∧
    (∀ (w : LocalWrite) (l : List (String × String)),
      pyStartswith p "s3://" = true →
      load_data_from_storage st p =
        load_data_from_storage {st with localWrite := w, localStore := l} p) ∧
    (∀ (c0 : Bool) (bk : String) (pb pg : Bool)
      (s : List ((String × String) × String)),
      pyStartswith p "s3://" = false →
      load_data_from_storage st p =
        load_data_from_storage
          {st with
            s3conf := c0
            bucket := bk
            s3PutOk := pb
            s3GetOk := pg
            s3store := s} p) := by
  refine ⟨?_, ?_, ?_, ?_, ?_, ?_, ?_, ?_, ?_⟩
  · intro h1 h2
    unfold load_data_from_storage
    rw [if_pos h1, if_neg (by simp [h2])]
  · intro h1 h2
    unfold load_data_from_storage
    rw [if_pos h1]
    by_cases hconf : st.s3conf = true
    · rw [if_pos hconf]
      unfold loadS3Parts
      by_cases hempty : String.mk ((splitSlash
          (pyReplace p "s3://" "").data).headD []) = "" ∨
          String.mk (joinSlashData (splitSlash
            (pyReplace p "s3://" "").data).tail) = ""
      · rw [if_pos hempty]
      · rw [if_neg hempty, if_neg (by simp [h2])]
    · rw [if_neg hconf]
  · intro key hb1 hb2 hb3 hk1 hk2 hconf hget hmiss
    rw [load_s3_uri st key hb1 hb2 hb3 hk1 hk2 hconf hget, hmiss]
  · intro key content hb1 hb2 hb3 hk1 hk2 hconf hget hhit
    rw [load_s3_uri st key hb1 hb2 hb3 hk1 hk2 hconf hget, hhit]
  · intro h1 h2
    unfold load_data_from_storage
    rw [if_neg (by simp [h1]), h2]
  · intro content h1 h2 h3
    unfold load_data_from_storage
    rw [if_neg (by simp [h1]), h2]
    show parsePayload content = emptyFrame
    unfold parsePayload
    rw [h3]
  · intro content j h1 h2 h3 h4
    unfold load_data_from_storage
    rw [if_neg (by simp [h1]), h2]
    show parsePayload content = emptyFrame
    unfold parsePayload
    rw [h3]
    show (match pdFrame j with
      | none => emptyFrame
      | some f => f) = emptyFrame
    rw [h4]
  · intro w l h1
    unfold load_data_from_storage
    rw [if_pos h1, if_pos h1]
    rfl
  · intro c0 bk pb pg s h1
    unfold load_data_from_storage
    rw [if_neg (by simp [h1]), if_neg (by simp [h1])]

/-- Concrete state for the C3 witness and counterexample: no remote
configured; one unparsable local file, one valid-JSON array-of-scalars file,
and one valid-JSON scalar file. -/
def c3State : StorageState :=
  { s3conf := false, bucket := "", s3PutOk := false, s3GetOk := false,
    s3store := [], localWrite := .success,
    localStore := [("data/bad.json", "notjson"),
                   ("data/nums.json", "[1, 2, 3]"),
                   ("data/scalar.json", "42")] }

/-- Concrete state for the C3 witness's missing-object clause: a configured,
reachable remote holding one object under a different key. -/
def c3StateB : StorageState :=
  { s3conf := true, bucket := "mybucket", s3PutOk := true, s3GetOk := true,
    s3store := [(("mybucket", "github_data/other.json"), "[]")],
    localWrite := .success, localStore := [] }

/-- C3 witness: the amended load theorem applied at concrete locators of
both schemes — unconfigured remote, missing local file, unparsable local
payload, constructor-rejected scalar payload, and a missing object in a
non-empty remote store — all hypotheses computed. -/
theorem c3_load_amended_witness :
    load_data_from_storage c3State "s3://b/k" = emptyFrame ∧
    load_data_from_storage c3State "data/missing.json" = emptyFrame ∧
    load_data_from_storage c3State "data/bad.json" = emptyFrame ∧
    load_data_from_storage c3State "data/scalar.json" = emptyFrame ∧
    load_data_from_storage c3StateB "s3://mybucket/github_data/missing.json" =
      emptyFrame :=
  ⟨(c3_load_amended c3State "s3://b/k").1 (by decide) (by decide),
   (c3_load_amended c3State "data/missing.json").2.2.2.2.1 (by decide)
     (by decide),
   (c3_load_amended c3State "data/bad.json").2.2.2.2.2.1 "notjson" (by decide)
     (by decide) (by decide),
   (c3_load_amended c3State "data/scalar.json").2.2.2.2.2.2.1 "42" (.jint 42)
     (by decide) (by decide) (by decide) (by decide),
   (c3_load_amended c3StateB "s3://x").2.2.1 "github_data/missing.json"
     (by decide) (by decide) (by decide) (by decide) (by decide) (by decide)
     (by decide) (by decide)⟩

/-- C3 counterexample: "[1, 2, 3]" is valid JSON that is not the expected
tabular array-of-records shape, yet pd.DataFrame accepts it (one positional
column, three rows), so load returns a NON-empty frame where the claim
requires an empty collection. -/
theorem c3_counterexample :
    load_data_from_storage c3State "data/nums.json" =
      .cells [.jint 1, .jint 2, .jint 3] ∧
    (load_data_from_storage c3State "data/nums.json").isEmpty = false ∧
    ¬(load_data_from_storage c3State "data/nums.json" = emptyFrame) := by
  refine ⟨by decide, by decide, by decide⟩

/-- Ranking-column access on a loaded record ('stars' or 'score'): pandas
holds the parsed integer; the analysis functions are guarded in the source
by column-presence checks, and a missing or non-integer field reads as 0
here. -/
def getInt (r : Record) (key : String) : Int :=
  match List.lookup key r with
  | some (.jint n) => n
  | _ => 0

/-- Model of df[col].fillna('') for a text column: a string is kept,
null or missing reads as the empty string. -/
def getStrOrEmpty (r : Record) (key : String) : String :=
  match List.lookup key r with
  | some (.jstr s) => s
  | _ => ""

/-- Model of DataFrame.nlargest(n, col), as used for the top-5 reports:
pandas computes the selection with a mergesort (stable) argsort on the
negated column, so rows are returned in descending order with ties keeping
their original order; embedded as a stable insertion sort (descending)
followed by take n. -/
def nlargest (n : Nat) (key : Record → Int) (rows : List Record) :
    List Record :=
  (List.insertionSort (fun a b => key b ≤ key a) rows).take n

/-- Model of df.sort_values(by=col, ascending=False), as used for the
mentions report.  pandas (pandas.core.sorting.nargsort) reverses the
values, argsorts them ascending with numpy's introsort, and reverses the
resulting indexer.  An array short enough to stay below numpy's
insertion-sort partition threshold is sorted by one stable insertion sort,
making the whole operation exactly the reversed stable ascending sort
written here — so on such frames equal keys come out in REVERSE original
order; on longer frames the library promises only a sorted permutation and
no particular tie order.  Accordingly the universal theorems below use only
the sorted-permutation facts of this definition, and the one tie-order
statement (the C6 counterexample) evaluates a two-row frame, squarely
inside the insertion-sort leg. -/
def sortValuesDesc {α : Type} (key : α → Int) (rows : List α) : List α :=
  (List.insertionSort (fun a b => key a ≤ key b) rows).reverse

theorem orderedInsert_filter_desc {α : Type} (key : α → Int) (k : Int)
    (x : α) (l : List α) :
    (List.orderedInsert (fun a b => key b ≤ key a) x l).filter
      (fun a => key a == k) =
    (if key x = k then x :: l.filter (fun a => key a == k)
     else l.filter (fun a => key a == k)) := by
  induction l with
  | nil =>
    show List.filter (fun a => key a == k) [x] = _
    by_cases hx : key x = k
    · rw [if_pos hx]
      simp [List.filter, hx]
    · rw [if_neg hx]
      simp [List.filter, beq_eq_false_iff_ne.mpr hx]
  | cons b l ih =>
    rw [show List.orderedInsert (fun a b => key b ≤ key a) x (b :: l) =
      (if key b ≤ key x then x :: b :: l
       else b :: List.orderedInsert (fun a b => key b ≤ key a) x l) from rfl]
    by_cases hbx : key b ≤ key x
    · rw [if_pos hbx]
      by_cases hx : key x = k <;> by_cases hb : key b = k <;>
        simp [List.filter_cons, hx, hb]
    · rw [if_neg hbx]
      by_cases hx : key x = k
      · have hb : ¬(key b = k) := by omega
        simp [List.filter_cons, hx, hb, ih]
      · by_cases hb : key b = k <;> simp [List.filter_cons, hx, hb, ih]

theorem insertionSort_filter_desc {α : Type} (key : α → Int) (k : Int)
    (l : List α) :
    (List.insertionSort (fun a b => key b ≤ key a) l).filter
      (fun a => key a == k) = l.filter (fun a => key a == k) := by
  induction l with
  | nil => rfl
  | cons x l ih =>
    rw [show List.insertionSort (fun a b => key b ≤ key a) (x :: l) =
      List.orderedInsert (fun a b => key b ≤ key a) x
        (List.insertionSort (fun a b => key b ≤ key a) l) from rfl]
    rw [orderedInsert_filter_desc, ih]
    by_cases hx : key x = k <;> simp [List.filter_cons, hx]

theorem orderedInsert_filter_asc {α : Type} (key : α → Int) (k : Int)
    (x : α) (l : List α) :
    (List.orderedInsert (fun a b => key a ≤ key b) x l).filter
      (fun a => key a == k) =
    (if key x = k then x :: l.filter (fun a => key a == k)
     else l.filter (fun a => key a == k)) := by
  induction l with
  | nil =>
    show List.filter (fun a => key a == k) [x] = _
    by_cases hx : key x = k
    · rw [if_pos hx]
      simp [List.filter, hx]
    · rw [if_neg hx]
      simp [List.filter, beq_eq_false_iff_ne.mpr hx]
  | cons b l ih =>
    rw [show List.orderedInsert (fun a b => key a ≤ key b) x (b :: l) =
      (if key x ≤ key b then x :: b :: l
       else b :: List.orderedInsert (fun a b => key a ≤ key b) x l) from rfl]
    by_cases hbx : key x ≤ key b
    · rw [if_pos hbx]
      by_cases hx : key x = k <;> by_cases hb : key b = k <;>
        simp [List.filter_cons, hx, hb]
    · rw [if_neg hbx]
      by_cases hx : key x = k
      · have hb : ¬(key b = k) := by omega
        simp [List.filter_cons, hx, hb, ih]
      · by_cases hb : key b = k <;> simp [List.filter_cons, hx, hb, ih]

theorem insertionSort_filter_asc {α : Type} (key : α → Int) (k : Int)
    (l : List α) :
    (List.insertionSort (fun a b => key a ≤ key b) l).filter
      (fun a => key a == k) = l.filter (fun a => key a == k) := by
  induction l with
  | nil => rfl
  | cons x l ih =>
    rw [show List.insertionSort (fun a b => key a ≤ key b) (x :: l) =
      List.orderedInsert (fun a b => key a ≤ key b) x
        (List.insertionSort (fun a b => key a ≤ key b) l) from rfl]
    rw [orderedInsert_filter_asc, ih]
    by_cases hx : key x = k <;> simp [List.filter_cons, hx]

/-- The reversed stable ascending sort puts rows of one key value in
reverse original order. -/
theorem sortValuesDesc_filter {α : Type} (key : α → Int) (k : Int)
    (l : List α) :
    (sortValuesDesc key l).filter (fun a => key a == k) =
      (l.filter (fun a => key a == k)).reverse := by
  unfold sortValuesDesc
  rw [List.filter_reverse, insertionSort_filter_asc]

theorem sorted_desc_insertionSort {α : Type} (key : α → Int) (l : List α) :
    List.Sorted (fun a b => key b ≤ key a)
      (List.insertionSort (fun a b => key b ≤ key a) l) := by
  haveI h1 : IsTotal α (fun a b => key b ≤ key a) :=
    ⟨fun a b => le_total (key b) (key a)⟩
  haveI h2 : IsTrans α (fun a b => key b ≤ key a) :=
    ⟨fun a b c hab hbc => le_trans hbc hab⟩
  exact List.sorted_insertionSort _ l

theorem sorted_desc_sortValuesDesc {α : Type} (key : α → Int) (l : List α) :
    List.Sorted (fun a b => key b ≤ key a) (sortValuesDesc key l) := by
  unfold sortValuesDesc
  haveI h1 : IsTotal α (fun a b => key a ≤ key b) :=
    ⟨fun a b => le_total (key a) (key b)⟩
  haveI h2 : IsTrans α (fun a b => key a ≤ key b) :=
    ⟨fun a b c hab hbc => le_trans hab hbc⟩
  unfold List.Sorted
  rw [List.pairwise_reverse]
  exact List.sorted_insertionSort _ l

/-- Sorted lists split by take/drop: everything dropped is bounded by
everything taken. -/
theorem sorted_take_drop {α : Type} (key : α → Int) (l : List α) (n : Nat)
    (h : List.Sorted (fun a b => key b ≤ key a) l) :
    ∀ x ∈ l.take n, ∀ y ∈ l.drop n, key y ≤ key x := by
  intro x hx y hy
  have hl : l.take n ++ l.drop n = l := List.take_append_drop n l
  have h2 : List.Pairwise (fun a b => key b ≤ key a) (l.take n ++ l.drop n) := by
    rw [hl]
    exact h
  exact (List.pairwise_append.mp h2).2.2 x hx y hy

/-- The 'stars' ranking column of a repository record. -/
def starsOf (r : Record) : Int := getInt r "stars"

/-- The 'score' ranking column of a discussion-post record. -/
def scoreOf (r : Record) : Int := getInt r "score"

/-- The mention count attached to a record by the mentions pipeline. -/
def cntOf (p : Record × Nat) : Int := (p.2 : Int)

/-- The github top-5 report of analyze_data (src/agent.py line 326):
df.nlargest(5, 'stars'). -/
def analyzeTop5Github (df : List Record) : List Record :=
  nlargest 5 starsOf df

/-- The reddit top-5 report of analyze_data (src/agent.py line 352):
df.nlargest(5, 'score'). -/
def analyzeTop5Reddit (df : List Record) : List Record :=
  nlargest 5 scoreOf df

/-- The combined text column for github mention search (src/agent.py lines
335-336): description.fillna('') + ' ' + readme_content.fillna(''). -/
def textForSearchGithub (r : Record) : String :=
  getStrOrEmpty r "description" ++ " " ++ getStrOrEmpty r "readme_content"

/-- The combined text column for reddit mention search (src/agent.py lines
360-361): title + ' ' + selftext + ' ' + comments_sample, each
fillna(''). -/
def textForSearchReddit (r : Record) : String :=
  getStrOrEmpty r "title" ++ " " ++ getStrOrEmpty r "selftext" ++ " " ++
    getStrOrEmpty r "comments_sample"

/-- Non-overlapping left-to-right occurrence count of pat in s, as
Series.str.count computes for a regexFree pattern, with fuel for structural
recursion. -/
def countOccAux : Nat → List Char → List Char → Nat
  | 0, _, _ => 0
  | fuel + 1, pat, s =>
    match s with
    | [] => 0
    | _ :: cs =>
      if pat.isPrefixOf s then 1 + countOccAux fuel pat (s.drop pat.length)
      else countOccAux fuel pat cs

def countOcc (pat s : String) : Nat :=
  countOccAux (s.data.length + 1) pat.data s.data

/-- The mention count of analyze_data: case-insensitive via lowering both
sides, df['text_for_search'].str.lower().str.count(library_name.lower()). -/
def mentionCount (term text : String) : Nat :=
  countOcc (pyLower term) (pyLower text)

/-- The github mentions pipeline of analyze_data (src/agent.py lines
332-341): guarded by `if library_name:` (an empty term skips the analysis),
pair each record with its mention count, keep the rows with count > 0, and
sort descending by count with sort_values(ascending=False). -/
def mentionsSortedGithub (df : List Record) (term : String) :
    List (Record × Nat) :=
  if term = "" then []
  else
    sortValuesDesc cntOf
      ((df.map (fun r => (r, mentionCount term (textForSearchGithub r)))).filter
        (fun p => decide (0 < p.2)))

/-- The reddit mentions pipeline of analyze_data (src/agent.py lines
358-366). -/
def mentionsSortedReddit (df : List Record) (term : String) :
    List (Record × Nat) :=
  if term = "" then []
  else
    sortValuesDesc cntOf
      ((df.map (fun r => (r, mentionCount term (textForSearchReddit r)))).filter
        (fun p => decide (0 < p.2)))

/-- The printed github mentions report: mentions_df.head(5) (src/agent.py
line 343). -/
def mentionsReportGithub (df : List Record) (term : String) :
    List (Record × Nat) :=
  (mentionsSortedGithub df term).take 5

/-- The printed reddit mentions report: mentions_df.head(5) (src/agent.py
line 368). -/
def mentionsReportReddit (df : List Record) (term : String) :
    List (Record × Nat) :=
  (mentionsSortedReddit df term).take 5

/-- Concrete records for the C5 example from the spec: stars 5, 9, 9. -/
def c5RecA : Record := [("name", .jstr "A"), ("stars", .jint 5)]

def c5RecB : Record := [("name", .jstr "B"), ("stars", .jint 9)]

def c5RecC : Record := [("name", .jstr "C"), ("stars", .jint 9)]

/-- Concrete discussion-post records mirroring the spec's tie example on the
score column: scores 5, 9, 9. -/
def c5PostA : Record := [("title", .jstr "A"), ("score", .jint 5)]

def c5PostB : Record := [("title", .jstr "B"), ("score", .jint 9)]

def c5PostC : Record := [("title", .jstr "C"), ("score", .jint 9)]

/-- C5 (confirmed): for BOTH source-specific paths — df.nlargest(5, 'stars')
for repository collections and df.nlargest(5, 'score') for discussion-post
collections — the top-5 ranking returns at most five records in descending
order of the ranking column, every reported record ranks at least as high
as every unreported one, the ranking loses no records (take-5 plus the rest
permute the input), ties keep their original insertion order (the stable
sort leaves each equal-key fiber unchanged), and on records with key values
5, 9, 9 the result is [B, C, A]. -/
theorem c5_rank_top5 (df : List Record) :
    List.Sorted (fun a b => starsOf b ≤ starsOf a) (analyzeTop5Github df) ∧
    (analyzeTop5Github df).length ≤ 5 ∧
    (∀ x ∈ analyzeTop5Github df,
      ∀ y ∈ (List.insertionSort (fun a b => starsOf b ≤ starsOf a) df).drop 5,
        starsOf y ≤ starsOf x) ∧
    (analyzeTop5Github df ++
      (List.insertionSort (fun a b => starsOf b ≤ starsOf a) df).drop 5).Perm
      df ∧
    (∀ k : Int,
      (List.insertionSort (fun a b => starsOf b ≤ starsOf a) df).filter
        (fun r => starsOf r == k) = df.filter (fun r => starsOf r == k)) ∧
    List.Sorted (fun a b => scoreOf b ≤ scoreOf a) (analyzeTop5Reddit df) ∧
    (analyzeTop5Reddit df).length ≤ 5 ∧
    (∀ x ∈ analyzeTop5Reddit df,
      ∀ y ∈ (List.insertionSort (fun a b => scoreOf b ≤ scoreOf a) df).drop 5,
        scoreOf y ≤ scoreOf x) ∧
    (analyzeTop5Reddit df ++
      (List.insertionSort (fun a b => scoreOf b ≤ scoreOf a) df).drop 5).Perm
      df ∧
    (∀ k : Int,
      (List.insertionSort (fun a b => scoreOf b ≤ scoreOf a) df).filter
        (fun r => scoreOf r == k) = df.filter (fun r => scoreOf r == k)) ∧
    analyzeTop5Github [c5RecA, c5RecB, c5RecC] = [c5RecB, c5RecC, c5RecA] ∧
    analyzeTop5Reddit [c5PostA, c5PostB, c5PostC] =
      [c5PostB, c5PostC, c5PostA] := by
  unfold analyzeTop5Github analyzeTop5Reddit nlargest
  refine ⟨?_, ?_, ?_, ?_, ?_, ?_, ?_, ?_, ?_, ?_, by decide, by decide⟩
  · exact List.Pairwise.sublist (List.take_sublist 5 _)
      (sorted_desc_insertionSort starsOf df)
  · rw [List.length_take]
    exact min_le_left _ _
  · exact sorted_take_drop starsOf _ 5 (sorted_desc_insertionSort starsOf df)
  · rw [List.take_append_drop]
    exact List.perm_insertionSort _ df
  · intro k
    exact insertionSort_filter_desc starsOf k df
  · exact List.Pairwise.sublist (List.take_sublist 5 _)
      (sorted_desc_insertionSort scoreOf df)
  · rw [List.length_take]
    exact min_le_left _ _
  · exact sorted_take_drop scoreOf _ 5 (sorted_desc_insertionSort scoreOf df)
  · rw [List.take_append_drop]
    exact List.perm_insertionSort _ df
  · intro k
    exact insertionSort_filter_desc scoreOf k df

/-- C5 witness: the ranking theorem applied at the spec's concrete
three-record collections of both source types, extracting the concrete
[B, C, A] clauses. -/
theorem c5_rank_top5_witness :
    analyzeTop5Github [c5RecA, c5RecB, c5RecC] = [c5RecB, c5RecC, c5RecA] ∧
    analyzeTop5Reddit [c5PostA, c5PostB, c5PostC] =
      [c5PostB, c5PostC, c5PostA] :=
  ⟨(c5_rank_top5 []).2.2.2.2.2.2.2.2.2.2.1,
   (c5_rank_top5 []).2.2.2.2.2.2.2.2.2.2.2⟩

/-- Two distinct repository records with the same mention count, exhibiting
the tie order of the mentions sort. -/
def c6g0 : Record :=
  [("name", .jstr "A"), ("description", .jstr "rust"),
   ("readme_content", .jstr "")]

def c6g1 : Record :=
  [("name", .jstr "B"), ("description", .jstr "rust"),
   ("readme_content", .jstr "")]

/-- C10 (confirmed): the printed mention-frequency report holds at most five
rows; every reported row has a count at least as large as every unreported
nonzero-count row; and the counts are computed for every record of the
collection (the pairing pass maps over the whole input). -/
theorem c10_report_cap (df : List Record) (term : String) :
    (mentionsReportGithub df term).length ≤ 5 ∧
    (mentionsReportReddit df term).length ≤ 5 ∧
    (∀ p ∈ mentionsReportGithub df term,
      ∀ q ∈ (mentionsSortedGithub df term).drop 5, cntOf q ≤ cntOf p) ∧
    (df.map (fun r =>
      (r, mentionCount term (textForSearchGithub r)))).map Prod.fst = df := by
  refine ⟨?_, ?_, ?_, ?_⟩
  · unfold mentionsReportGithub
    rw [List.length_take]
    exact min_le_left _ _
  · unfold mentionsReportReddit
    rw [List.length_take]
    exact min_le_left _ _
  · intro p hp q hq
    by_cases ht : term = ""
    · rw [ht] at hp
      simp [mentionsReportGithub, mentionsSortedGithub] at hp
    · refine sorted_take_drop cntOf (mentionsSortedGithub df term) 5 ?_ p hp q hq
      unfold mentionsSortedGithub
      rw [if_neg ht]
      exact sorted_desc_sortValuesDesc cntOf _
  · rw [List.map_map]
    exact List.map_id'' (fun x => rfl) df

/-- C10 witness: the report-cap theorem applied at a concrete collection
and term. -/
theorem c10_report_cap_witness :
    (mentionsReportGithub [c6g0, c6g1] "rust").length ≤ 5 :=
  (c10_report_cap [c6g0, c6g1] "rust").1

/-- Candidate test of the context-selection chain in main (src/agent.py
lines 497-505): the column is present in the row, pd.notna holds (null
fails), and the value strips to a non-empty string.  The normalizers only
put strings or null in these fields; a non-string value, whose .strip()
would raise, is modelled as failing the test. -/
def candOk (entry : Record) (key : String) : Bool :=
  match List.lookup key entry with
  | some (.jstr s) => !(pyStrip s == "")
  | _ => false

/-- The candidate value used once the test passes: the raw unstripped
field. -/
def candVal (entry : Record) (key : String) : String :=
  match List.lookup key entry with
  | some (.jstr s) => s
  | _ => ""

/-- Embedding of the context-selection chain of the ask command
(src/agent.py lines 495-505): readme_content, then selftext, then
description, then title; none when every candidate fails. -/
def selectContext (entry : Record) : Option String :=
  if candOk entry "readme_content" then some (candVal entry "readme_content")
  else if candOk entry "selftext" then some (candVal entry "selftext")
  else if candOk entry "description" then some (candVal entry "description")
  else if candOk entry "title" then some (candVal entry "title")
  else none

theorem candOk_of_lookup_none {entry : Record} {key : String}
    (h : List.lookup key entry = none) : candOk entry key = false := by
  unfold candOk
  rw [h]

/-- C7 (amended): context selection returns the first candidate, in the
fixed chain order readme_content, selftext, description, title, that is
present, non-null and not whitespace-only, and none when all fail.  For a
repository record (which has no selftext or title field) the priority is
README, then description, then NONE: there is no fallback to the name
field, contrary to the claim.  For a discussion-post record (which has no
readme_content or description field) the priority is body, then title, as
claimed. -/
theorem c7_context_amended :
    (∀ entry : Record, List.lookup "selftext" entry = none →
      List.lookup "title" entry = none →
      selectContext entry =
        (if candOk entry "readme_content" then
          some (candVal entry "readme_content")
        else if candOk entry "description" then
          some (candVal entry "description")
        else none)) ∧
    (∀ entry : Record, List.lookup "readme_content" entry = none →
      List.lookup "description" entry = none →
      selectContext entry =
        (if candOk entry "selftext" then some (candVal entry "selftext")
        else if candOk entry "title" then some (candVal entry "title")
        else none)) ∧
    (∀ entry : Record,
      candOk entry "readme_content" = false → candOk entry "selftext" = false →
      candOk entry "description" = false → candOk entry "title" = false →
      selectContext entry = none) := by
  refine ⟨?_, ?_, ?_⟩
  · intro entry hsel htitle
    unfold selectContext
    rw [candOk_of_lookup_none hsel, candOk_of_lookup_none htitle]
    by_cases h1 : candOk entry "readme_content" = true
    · rw [if_pos h1, if_pos h1]
    · rw [if_neg h1, if_neg h1, if_neg (by simp)]
      by_cases h2 : candOk entry "description" = true
      · rw [if_pos h2, if_pos h2]
      · rw [if_neg h2, if_neg h2, if_neg (by simp)]
  · intro entry hread hdesc
    unfold selectContext
    rw [candOk_of_lookup_none hread, candOk_of_lookup_none hdesc]
    rw [if_neg (by simp)]
    by_cases h1 : candOk entry "selftext" = true
    · rw [if_pos h1, if_pos h1]
    · rw [if_neg h1, if_neg h1, if_neg (by simp)]
  · intro entry h1 h2 h3 h4
    unfold selectContext
    rw [h1, h2, h3, h4]
    rfl

/-- Concrete repository record with blank README and description but a
non-blank name, for the C7 counterexample and witness. -/
def c7Repo : Record :=
  [("id", .jint 1), ("name", .jstr "octo/widget"),
   ("description", .jstr ""), ("stars", .jint 3), ("forks", .jint 1),
   ("language", .jnull), ("url", .jstr "https://example"),
   ("created_at", .jnull), ("updated_at", .jnull),
   ("topics", .jarr .jnil), ("readme_content", .jstr "")]

/-- Concrete repository record with blank README and a usable
description. -/
def c7Repo2 : Record :=
  [("id", .jint 2), ("name", .jstr "octo/widget"),
   ("description", .jstr "a widget"), ("stars", .jint 3), ("forks", .jint 1),
   ("language", .jnull), ("url", .jstr "https://example"),
   ("created_at", .jnull), ("updated_at", .jnull),
   ("topics", .jarr .jnil), ("readme_content", .jstr "")]

/-- C7 witness: the amended theorem applied at concrete records; the
repository record with empty README and non-empty description yields the
description. -/
theorem c7_context_amended_witness :
    selectContext c7Repo2 =
      (if candOk c7Repo2 "readme_content" then
        some (candVal c7Repo2 "readme_content")
      else if candOk c7Repo2 "description" then
        some (candVal c7Repo2 "description")
      else none) ∧
    selectContext c7Repo2 = some "a widget" :=
  ⟨(c7_context_amended).1 c7Repo2 (by decide) (by decide), by decide⟩

/-- C7 counterexample: a repository record whose README and description are
blank but whose name is non-blank selects NO context (and the program
prints "No suitable text context found"), while the claim requires the name
"octo/widget" to be returned as the third candidate. -/
theorem c7_counterexample :
    selectContext c7Repo = none ∧
    List.lookup "name" c7Repo = some (.jstr "octo/widget") ∧
    ¬(pyStrip "octo/widget" = "") := by
  refine ⟨by decide, by decide, by decide⟩

/-- Outcome of ask_ai_question: the pipeline is missing, the guard returned
the fixed insufficient-information answer, or the QA capability was invoked
with the recorded context string (the capability itself is the external
black box). -/
inductive QAOutcome : Type where
  | unavailable : QAOutcome
  | insufficient : QAOutcome
  | invoked : String → QAOutcome
  deriving DecidableEq

/-- Embedding of ask_ai_question (src/agent.py lines 377-404): guard on a
missing pipeline; guard on a context that is empty or whitespace-only
(len(context_text.strip()) == 0) BEFORE any truncation; otherwise invoke
the capability with context_text[:4000] (hard prefix truncation, nothing
appended). -/
def ask_ai_question (pipelineUp : Bool) (question context_text : String) :
    QAOutcome :=
  if !pipelineUp then .unavailable
  else if context_text = "" ∨ pyStrip context_text = "" then .insufficient
  else .invoked (pySliceTo 4000 context_text)

/-- Embedding of ask_ai_question in src/main.py (lines 195-214), the
claim's second cited source: the guard is only the falsiness test
`if not context_text:` (a whitespace-only context passes it), and a context
longer than 500 characters is trimmed to its first 500 characters with
"..." APPENDED; 500 characters or fewer pass through unchanged.  main.py
builds its pipeline unconditionally at import, so there is no
pipeline-missing branch. -/
def ask_ai_question_main (question context_text : String) : QAOutcome :=
  if context_text = "" then .insufficient
  else .invoked (if 500 < context_text.data.length
    then pySliceTo 500 context_text ++ "..." else context_text)

/-- C8 (amended): the two cited implementations differ and are stated
separately.  The agent.py adapter guards on the UNtrimmed context: with the
pipeline up, it returns the fixed insufficient-information result exactly
when the whole context strips to empty, and otherwise invokes the
capability with exactly the first 4000 characters of the context, nothing
appended — even when those 4000 characters are all whitespace.  The main.py
adapter guards only on the empty string (a whitespace-only context is
passed through), hands a context of at most 500 characters over unchanged,
and for a longer one passes the first 500 characters with "..." appended.
Neither dispatch depends on the question string. -/
theorem c8_qa_amended (pipelineUp : Bool) (question context_text : String) :
    (pipelineUp = false →
      ask_ai_question pipelineUp question context_text = .unavailable) ∧
    (pipelineUp = true → pyStrip context_text = "" →
      ask_ai_question pipelineUp question context_text = .insufficient) ∧
    (pipelineUp = true → ¬(pyStrip context_text = "") →
      ask_ai_question pipelineUp question context_text =
        .invoked (pySliceTo 4000 context_text)) ∧
    (∀ q2 : String, ask_ai_question pipelineUp question context_text =
      ask_ai_question pipelineUp q2 context_text) ∧
    ask_ai_question_main question "" = .insufficient ∧
    (¬(context_text = "") → context_text.data.length ≤ 500 →
      ask_ai_question_main question context_text = .invoked context_text) ∧
    (¬(context_text = "") → 500 < context_text.data.length →
      ask_ai_question_main question context_text =
        .invoked (pySliceTo 500 context_text ++ "...")) ∧
    (∀ q2 : String, ask_ai_question_main question context_text =
      ask_ai_question_main q2 context_text) := by
  refine ⟨?_, ?_, ?_, ?_, ?_, ?_, ?_, ?_⟩
  · intro h
    unfold ask_ai_question
    rw [if_pos (by simp [h])]
  · intro h1 h2
    unfold ask_ai_question
    rw [if_neg (by simp [h1]), if_pos (Or.inr h2)]
  · intro h1 h2
    unfold ask_ai_question
    have hne : ¬(context_text = "") := by
      intro he
      exact h2 (by rw [he]; rfl)
    rw [if_neg (by simp [h1]), if_neg (by simp [hne, h2])]
  · intro q2
    rfl
  · rfl
  · intro h1 h2
    unfold ask_ai_question_main
    rw [if_neg h1, if_neg (by omega)]
  · intro h1 h2
    unfold ask_ai_question_main
    rw [if_neg h1, if_pos h2]
  · intro q2
    rfl

/-- The C8 counterexample context: 4000 spaces followed by one non-space
character. -/
def c8Ctx : String := String.mk (List.replicate 4000 ' ' ++ ['x'])

theorem take_replicate_append (n : Nat) (a : Char) (l : List Char) :
    (List.replicate n a ++ l).take n = List.replicate n a := by
  induction n with
  | zero => rfl
  | succ k ih => simp [List.replicate_succ, ih]

theorem dropWhile_space_replicate_append (n : Nat) (l : List Char) :
    List.dropWhile pyIsSpace (List.replicate n ' ' ++ l) =
      List.dropWhile pyIsSpace l := by
  have hsp : pyIsSpace ' ' = true := rfl
  induction n with
  | zero => rfl
  | succ k ih => simpa [List.replicate_succ, List.dropWhile_cons, hsp] using ih

/-- C8 witness: the amended theorem applied at a concrete non-blank
context for both adapters, hypotheses computed. -/
theorem c8_qa_amended_witness :
    ask_ai_question true "What is it?" "A small tool." =
      .invoked (pySliceTo 4000 "A small tool.") ∧
    ask_ai_question_main "What is it?" "A small tool." =
      .invoked "A small tool." :=
  ⟨(c8_qa_amended true "What is it?" "A small tool.").2.2.1 (by decide)
     (by decide),
   (c8_qa_amended true "What is it?" "A small tool.").2.2.2.2.2.1 (by decide)
     (by decide)⟩

/-- The C8 counterexample context for the main.py adapter: 501 'a's, one
over its 500-character bound. -/
def c8Long : String := String.mk (List.replicate 501 'a')

/-- C8 counterexample, refuting the claim against both cited sources.
agent.py: on a context of 4000 spaces followed by "x", the trimmed context
(its first 4000 characters) contains no non-whitespace character, yet the
code invokes the QA capability with that all-whitespace prefix instead of
returning the fixed insufficient-information result.  main.py: a
whitespace-only context is passed to the capability rather than rejected,
and a 501-character context reaches the capability as its first 500
characters with "..." appended — not "exactly the first 4000 characters
... nothing appended". -/
theorem c8_counterexample :
    (ask_ai_question true "q" c8Ctx =
      .invoked (String.mk (List.replicate 4000 ' ')) ∧
    pyStrip (pySliceTo 4000 c8Ctx) = "" ∧
    ¬(ask_ai_question true "q" c8Ctx = .insufficient)) ∧
    (ask_ai_question_main "q" " " = .invoked " " ∧
    pyStrip " " = "" ∧
    ¬(ask_ai_question_main "q" " " = .insufficient)) ∧
    (ask_ai_question_main "q" c8Long =
      .invoked (String.mk (List.replicate 500 'a' ++ ['.', '.', '.'])) ∧
    ¬(String.mk (List.replicate 500 'a' ++ ['.', '.', '.']) =
      pySliceTo 4000 c8Long)) := by
  refine ⟨?_, ⟨by decide, by decide, by decide⟩, ?_, ?_⟩
  case refine_2 =>
    have hlenL : c8Long.data.length = 501 := by
      show (List.replicate 501 'a').length = 501
      rw [List.length_replicate]
    have hneL : ¬(c8Long = "") := by
      intro h
      have h2 : List.replicate 501 'a' = ([] : List Char) :=
        congrArg String.data h
      have h3 := congrArg List.length h2
      rw [List.length_replicate] at h3
      simp at h3
    have htake : pySliceTo 500 c8Long = String.mk (List.replicate 500 'a') := by
      show String.mk ((List.replicate 501 'a').take 500) = _
      rw [List.take_replicate, show min 500 501 = 500 from by omega]
    have happ : String.mk (List.replicate 500 'a') ++ "..." =
        String.mk (List.replicate 500 'a' ++ ['.', '.', '.']) := rfl
    unfold ask_ai_question_main
    rw [if_neg hneL, if_pos (show 500 < c8Long.data.length from by
      rw [hlenL]; omega), htake, happ]
  case refine_3 =>
    have hslice : pySliceTo 4000 c8Long = String.mk (List.replicate 501 'a') := by
      show String.mk ((List.replicate 501 'a').take 4000) = _
      rw [List.take_replicate, show min 4000 501 = 501 from by omega]
    rw [hslice]
    intro h
    have h2 : (List.replicate 500 'a' ++ ['.', '.', '.']).length =
        (List.replicate 501 'a').length := congrArg (fun s => s.data.length) h
    rw [List.length_append, List.length_replicate, List.length_replicate,
      show (['.', '.', '.'] : List Char).length = 3 from rfl] at h2
    omega
  have hslice : pySliceTo 4000 c8Ctx = String.mk (List.replicate 4000 ' ') :=
    congrArg String.mk (take_replicate_append 4000 ' ' ['x'])
  have hdropnil :
      List.dropWhile pyIsSpace (List.replicate 4000 ' ') = [] := by
    have h := dropWhile_space_replicate_append 4000 ([] : List Char)
    rw [List.append_nil] at h
    exact h
  have hstrip0 : pyStrip (String.mk (List.replicate 4000 ' ')) = "" := by
    unfold pyStrip stripEnds
    rw [show (String.mk (List.replicate 4000 ' ')).data =
      List.replicate 4000 ' ' from rfl, hdropnil]
    rfl
  have hstripCtx : pyStrip c8Ctx = "x" := by
    unfold pyStrip stripEnds c8Ctx
    rw [show (String.mk (List.replicate 4000 ' ' ++ ['x'])).data =
      List.replicate 4000 ' ' ++ ['x'] from rfl,
      dropWhile_space_replicate_append]
    rfl
  have hcne : ¬(c8Ctx = "") := by
    intro h
    have h2 : List.replicate 4000 ' ' ++ ['x'] = ([] : List Char) :=
      congrArg String.data h
    have h3 := congrArg List.length h2
    rw [List.length_append, List.length_replicate] at h3
    simp at h3
  have hsne : ¬(pyStrip c8Ctx = "") := by
    rw [hstripCtx]
    decide
  have hmain : ask_ai_question true "q" c8Ctx =
      .invoked (pySliceTo 4000 c8Ctx) := by
    unfold ask_ai_question
    rw [if_neg (by decide), if_neg (by simp [hcne, hsne])]
  refine ⟨?_, ?_, ?_⟩
  · rw [hmain, hslice]
  · rw [hslice, hstrip0]
  · rw [hmain]
    intro h
    exact QAOutcome.noConfusion h

/-- Raw repository item as handed to normalization by the GitHub connector:
the attribute set the normalizers read (timestamps already rendered to
their isoformat string, or null; the README already decoded to a string,
empty when missing). -/
structure RawRepo where
  id : Int
  full_name : String
  description : Option String
  stargazers_count : Int
  forks_count : Int
  language : Option String
  html_url : String
  created_at : Option String
  updated_at : Option String
  topics : List String
  readme : String

/-- A nullable connector string as a JSON value (json.dump writes Python
None as null). -/
def optStr : Option String → Jval
  | none => .jnull
  | some s => .jstr s

/-- A topic list as a JSON array of strings. -/
def strListToJList : List String → JList
  | [] => .jnil
  | s :: rest => .jcons (.jstr s) (strListToJList rest)

/-- Embedding of the repository record built by fetch_github_data in
src/agent.py (lines 227-240): readme_content is readme_content[:200000]. -/
def mkRepoRecordAgent (r : RawRepo) : Record :=
  [("id", .jint r.id), ("name", .jstr r.full_name),
   ("description", optStr r.description),
   ("stars", .jint r.stargazers_count), ("forks", .jint r.forks_count),
   ("language", optStr r.language), ("url", .jstr r.html_url),
   ("created_at", optStr r.created_at), ("updated_at", optStr r.updated_at),
   ("topics", .jarr (strListToJList r.topics)),
   ("readme_content", .jstr (pySliceTo 200000 r.readme))]

/-- Embedding of the repository record built by fetch_github_data in
src/main.py (lines 71-80): no id or timestamp fields, and the README is
stored WITHOUT truncation. -/
def mkRepoRecordMain (r : RawRepo) : Record :=
  [("name", .jstr r.full_name), ("description", optStr r.description),
   ("stars", .jint r.stargazers_count), ("forks", .jint r.forks_count),
   ("language", optStr r.language), ("url", .jstr r.html_url),
   ("readme_content", .jstr r.readme),
   ("topics", .jarr (strListToJList r.topics))]

/-- C9 (amended): for every repository record produced by the src/agent.py
normalizer, the readme_content field is exactly the first 200000 characters
of the fetched README, hence contains at most 200000 characters regardless
of the fetched length.  (The src/main.py normalizer does not truncate; see
the counterexample.) -/
theorem c9_readme_amended (r : RawRepo) :
    List.lookup "readme_content" (mkRepoRecordAgent r) =
      some (.jstr (pySliceTo 200000 r.readme)) ∧
    (∀ s : String,
      List.lookup "readme_content" (mkRepoRecordAgent r) = some (.jstr s) →
      s.length ≤ 200000) := by
  have h0 : List.lookup "readme_content" (mkRepoRecordAgent r) =
      some (.jstr (pySliceTo 200000 r.readme)) := rfl
  refine ⟨h0, ?_⟩
  intro s hs
  rw [h0] at hs
  have h1 : Jval.jstr (pySliceTo 200000 r.readme) = Jval.jstr s :=
    Option.some.inj hs
  have h2 : pySliceTo 200000 r.readme = s := by injection h1
  rw [← h2]
  show (r.readme.data.take 200000).length ≤ 200000
  rw [List.length_take]
  exact Nat.min_le_left _ _

/-- Concrete raw item for the C9 witness. -/
def c9RawSmall : RawRepo :=
  ⟨1, "octo/widget", some "a widget", 3, 1, none, "https://example",
   none, none, ["cli"], "hello"⟩

/-- C9 witness: the amended theorem applied at a concrete raw item; the
stored README is the 200000-character prefix and its length is within the
bound. -/
theorem c9_readme_amended_witness :
    List.lookup "readme_content" (mkRepoRecordAgent c9RawSmall) =
      some (.jstr "hello") ∧ ("hello" : String).length ≤ 200000 :=
  ⟨by decide, (c9_readme_amended c9RawSmall).2 "hello" (by decide)⟩

/-- The C9 counterexample raw item: a README one character over the
bound. -/
def c9Raw : RawRepo :=
  ⟨2, "octo/huge", none, 0, 0, none, "https://example", none, none, [],
   String.mk (List.replicate 200001 'a')⟩

/-- C9 counterexample: the src/main.py normalizer (one of the claim's cited
sources) stores the fetched README without truncation, so a
200001-character README yields a repository record whose readme_content
field has more than 200000 characters, contradicting the claim for that
normalizer. -/
theorem c9_counterexample :
    List.lookup "readme_content" (mkRepoRecordMain c9Raw) =
      some (.jstr c9Raw.readme) ∧
    (c9Raw.readme).length = 200001 ∧ 200000 < 200001 := by
  refine ⟨rfl, ?_, by omega⟩
  show (List.replicate 200001 'a').length = 200001
  rw [List.length_replicate]

end InsightAgent
